import Mathlib

/-!
Verification of the Millhouse agent-orchestration core against its source.

Shallow embedding conventions:
- Go `int` is modelled as `Int` (64-bit overflow is out of range for the
  token counts and priorities involved).
- `encoding/json` is modelled by an inductive `Json` value (the result of
  syntactic JSON parsing) together with Go's documented unmarshalling rules,
  including the rule that unmarshalling JSON `null` into a non-pointer Go
  value is a silent no-op that leaves the zero value in place.
- Filesystem effects of `Save` are modelled as a trace of primitive
  filesystem operations (`FsOp`).
- Text is modelled as `List Char`; Go regexp matching of the fixed marker
  patterns is modelled by dedicated scanners implementing the leftmost,
  lazy-quantifier semantics of the concrete patterns in the source.
-/

/-- Model of a parsed JSON document (the output of syntactic JSON parsing). -/
inductive Json where
  | null : Json
  | bool (b : Bool) : Json
  | num (n : Int) : Json
  | str (s : String) : Json
  | arr (items : List Json) : Json
  | obj (fields : List (String × Json)) : Json
deriving Repr

/-- Status value stored in the dynamically typed `PassesStatus.Value`
field of `internal/prd/prd.go` (`interface\x7b\x7d` holding a bool, a string,
or nothing: the Go zero value `nil`). -/
inductive PassesStatus where
  | vnil : PassesStatus
  | vbool (b : Bool) : PassesStatus
  | vstr (s : String) : PassesStatus
deriving DecidableEq, Repr

/-- Go `PassesStatus.IsFalse` from `internal/prd/prd.go`. -/
def PassesStatus.IsFalse : PassesStatus → Bool
  | .vbool b => !b
  | _ => false

/-- Go `PassesStatus.IsActive` from `internal/prd/prd.go`. -/
def PassesStatus.IsActive : PassesStatus → Bool
  | .vstr s => s == "active"
  | _ => false

/-- Go `PassesStatus.IsPending` from `internal/prd/prd.go`. -/
def PassesStatus.IsPending : PassesStatus → Bool
  | .vstr s => s == "pending"
  | _ => false

/-- Go `PassesStatus.IsTrue` from `internal/prd/prd.go`. -/
def PassesStatus.IsTrue : PassesStatus → Bool
  | .vbool b => b
  | _ => false

/-- Go `json.Unmarshal(data, &b)` for `var b bool`: succeeds on a JSON bool;
on JSON `null` it is a documented no-op that leaves the zero value `false`
in place and reports no error; fails on everything else. -/
def goUnmarshalBool : Json → Option Bool
  | .bool b => some b
  | .null => some false
  | _ => none

/-- Go `json.Unmarshal(data, &s)` for `var s string`: succeeds on a JSON
string; on JSON `null` it is a no-op leaving the zero value `""`; fails on
everything else. -/
def goUnmarshalString : Json → Option String
  | .str s => some s
  | .null => some ""
  | _ => none

/-- Go `PassesStatus.UnmarshalJSON` from `internal/prd/prd.go` lines 76-93:
first try to unmarshal a bool, then a string restricted to
"active"/"pending", otherwise report an error. -/
def unmarshalPasses (j : Json) : Except String PassesStatus :=
  match goUnmarshalBool j with
  | some b => .ok (.vbool b)
  | none =>
    match goUnmarshalString j with
    | some s =>
      if s = "active" || s = "pending" then .ok (.vstr s)
      else .error ("invalid passes string value: " ++ s)
    | none => .error "passes must be bool or 'active'/'pending'"

/-- Requirement record (`PRD` struct in `internal/prd/prd.go`). -/
structure PRD where
  ID : String
  Description : String
  AcceptanceCriteria : List String
  Priority : Int
  Passes : PassesStatus
  Notes : String
  ActivePlan : String
deriving DecidableEq, Repr

/-- Store of requirement records (`PRDFileData` in `internal/prd/prd.go`). -/
structure PRDFileData where
  PRDs : List PRD
deriving DecidableEq, Repr

/-- Go unmarshalling of a `[]string` field: `null` yields the nil slice,
an array requires each element to unmarshal as a string. -/
def goUnmarshalStringList : Json → Except String (List String)
  | .null => .ok []
  | .arr xs =>
    xs.mapM (fun j =>
      match goUnmarshalString j with
      | some s => Except.ok s
      | none => Except.error "json: cannot unmarshal value into string")
  | _ => .error "json: cannot unmarshal value into []string"

/-- Go unmarshalling of an `int` field: `null` is a no-op (zero value 0). -/
def goUnmarshalInt : Json → Except String Int
  | .null => .ok 0
  | .num n => .ok n
  | _ => .error "json: cannot unmarshal value into int"

/-- Field lookup in a JSON object (Go matches struct tags; the
case-insensitive fallback match of encoding/json is not needed by any
claim and is omitted). -/
def lookupField (fields : List (String × Json)) (k : String) : Option Json :=
  (fields.find? (fun f => f.1 == k)).map (fun f => f.2)

/-- Decode one string struct field: a missing field keeps the zero value. -/
def decodeStrField (fields : List (String × Json)) (k : String) :
    Except String String :=
  match lookupField fields k with
  | none => .ok ""
  | some j =>
    match goUnmarshalString j with
    | some s => .ok s
    | none => .error ("json: cannot unmarshal value into field " ++ k)

/-- Go unmarshalling of one `PRD` record: requires a JSON object (or null,
which keeps the zero record); unknown fields are ignored; missing fields
keep their zero values; `passes` goes through `unmarshalPasses`. -/
def decodePRD : Json → Except String PRD
  | .null => .ok ⟨"", "", [], 0, .vnil, "", ""⟩
  | .obj fields => do
    let id ← decodeStrField fields "id"
    let desc ← decodeStrField fields "description"
    let ac ←
      match lookupField fields "acceptanceCriteria" with
      | none => Except.ok []
      | some j => goUnmarshalStringList j
    let pri ←
      match lookupField fields "priority" with
      | none => Except.ok 0
      | some j => goUnmarshalInt j
    let passes ←
      match lookupField fields "passes" with
      | none => Except.ok PassesStatus.vnil
      | some j => unmarshalPasses j
    let notes ← decodeStrField fields "notes"
    let plan ← decodeStrField fields "activePlan"
    pure ⟨id, desc, ac, pri, passes, notes, plan⟩
  | _ => .error "json: cannot unmarshal value into Go value of type prd.PRD"

/-- Go unmarshalling of the `[]PRD` slice. -/
def decodePRDList : Json → Except String (List PRD)
  | .null => .ok []
  | .arr xs => xs.mapM decodePRD
  | _ => .error "json: cannot unmarshal value into Go value of type []prd.PRD"

/-- Go unmarshalling of the whole `PRDFileData` document: the top level must
be a JSON object (or null); in particular a bare JSON array is a hard
error, exactly as `json.Unmarshal` reports for an array against a struct. -/
def decodePRDFileData : Json → Except String PRDFileData
  | .null => .ok ⟨[]⟩
  | .obj fields =>
    match lookupField fields "prds" with
    | none => .ok ⟨[]⟩
    | some j => (decodePRDList j).map (fun rs => ⟨rs⟩)
  | _ =>
    .error "json: cannot unmarshal array into Go value of type prd.PRDFileData"

/-- Contents of the `prd.json` file as seen by `Load`, after the purely
syntactic JSON-parsing boundary: an empty file, syntactically invalid
JSON, or a parsed JSON value. -/
inductive FileContent where
  | emptyFile : FileContent
  | invalid : FileContent
  | json (j : Json) : FileContent

/-- Go `Load` from `internal/prd/prd.go` lines 112-125: read the file and
`json.Unmarshal` it into `PRDFileData`; every unmarshal failure (including
an empty file and a bare top-level array) is wrapped and returned as a
hard error.  There is no recovery path in this function. -/
def Load (content : FileContent) : Except String PRDFileData :=
  match content with
  | .emptyFile => .error "failed to parse prd.json: unexpected end of JSON input"
  | .invalid => .error "failed to parse prd.json: invalid character"
  | .json j =>
    match decodePRDFileData j with
    | .ok d => .ok d
    | .error e => .error ("failed to parse prd.json: " ++ e)

/-- Result of the resilient load: the store plus whether a recovery warning
was emitted and whether the corrected document was auto-saved back. -/
structure LoadResult where
  store : PRDFileData
  warned : Bool
  autosaved : Bool
deriving DecidableEq, Repr

/-- Modelled from the spec: the resilient `Load` documented in
CHANGELOG 0.4.13 ("detects bare arrays, auto-fixes, handles empty files",
"auto-saves the fixed version after recovery", "prints warning") is not
present under src/; only its changelog entry is.  Per the spec: a bare
top-level JSON array is auto-wrapped into the expected object, auto-saved
back, and a warning is emitted; an empty file is an empty record set; any
other parse failure is a hard error. -/
def loadResilient (content : FileContent) : Except String LoadResult :=
  match content with
  | .emptyFile => .ok ⟨⟨[]⟩, false, false⟩
  | .invalid => .error "failed to parse prd.json"
  | .json (Json.arr xs) =>
    (decodePRDList (Json.arr xs)).map (fun rs => ⟨⟨rs⟩, true, true⟩)
  | .json j => (decodePRDFileData j).map (fun d => ⟨d, false, false⟩)

/-- Go `GetOpenPRDs` from `internal/prd/prd.go` (loop appending records
with `passes = false`, preserving store order). -/
def GetOpenPRDs (p : PRDFileData) : List PRD :=
  p.PRDs.filter (fun r => r.Passes.IsFalse)

/-- Go `GetActivePRDs` from `internal/prd/prd.go`. -/
def GetActivePRDs (p : PRDFileData) : List PRD :=
  p.PRDs.filter (fun r => r.Passes.IsActive)

/-- Go `GetPendingPRDs` from `internal/prd/prd.go`. -/
def GetPendingPRDs (p : PRDFileData) : List PRD :=
  p.PRDs.filter (fun r => r.Passes.IsPending)

/-- Go `GetCompletePRDs` from `internal/prd/prd.go`. -/
def GetCompletePRDs (p : PRDFileData) : List PRD :=
  p.PRDs.filter (fun r => r.Passes.IsTrue)

/-- Go `FindByID` from `internal/prd/prd.go`: first record with the given
id, scanning in store order. -/
def FindByID (l : List PRD) (id : String) : Option PRD :=
  match l with
  | [] => none
  | r :: rest => if r.ID = id then some r else FindByID rest id

/-- Stable insertion step used to model the order produced by Go
`sort.Slice` with the comparator `open[i].Priority < open[j].Priority` in
`SelectNext`.  Go `sort.Slice` is documented as NOT stable: it runs a
stable insertion sort only for slices of at most 12 elements and an
unstable pattern-defeating quicksort above that, which may reorder
records of equal priority.  This model therefore agrees with the program
exactly for at most 12 Open records; the selector theorem asserts the
tie-break-by-store-order property only under that bound, and no other
property proved about `SelectNext` depends on the order among records of
equal priority (sortedness itself is `sort.Slice`'s documented contract
at every length). -/
def orderedInsertGo (a : PRD) : List PRD → List PRD
  | [] => [a]
  | b :: l => if a.Priority ≤ b.Priority then a :: b :: l else b :: orderedInsertGo a l

/-- Sorting by ascending priority: a sorted permutation, as `sort.Slice`
guarantees at every length; stable, which matches Go only for at most 12
elements — see `orderedInsertGo` for the exact scope of this model. -/
def sortByPriority : List PRD → List PRD
  | [] => []
  | a :: l => orderedInsertGo a (sortByPriority l)

/-- Go `SelectNext` from `internal/prd/selector.go` lines 10-29: take the
open records, return nil when there are none, sort the copies by priority,
then return the record in the store whose ID matches the first sorted
copy (the Go code returns a pointer into the store located by an ID scan). -/
def SelectNext (p : PRDFileData) : Option PRD :=
  let opn := GetOpenPRDs p
  if opn.isEmpty then none
  else
    match sortByPriority opn with
    | [] => none
    | best :: _ => FindByID p.PRDs best.ID

/-- Primitive filesystem operation, for modelling the write pattern of
`Save` as a trace. -/
inductive FsOp where
  | write (path : String) (content : String) : FsOp
  | rename (src : String) (dst : String) : FsOp
deriving DecidableEq, Repr

/-- Path of the store file, `filepath.Join(basePath, ".milhouse", "prd.json")`. -/
def prdJsonPath (basePath : String) : String :=
  basePath ++ "/.milhouse/prd.json"

/-- Go hexadecimal digit for escape sequences. -/
def hexDigit (n : Nat) : Char :=
  if n < 10 then Char.ofNat (48 + n) else Char.ofNat (87 + n)

/-- Escape one character the way Go `json.Marshal` does with its default
HTML-escaping encoder. -/
def goEscapeChar (c : Char) : String :=
  if c = '"' then "\\\""
  else if c = '\\' then "\\\\"
  else if c = '\n' then "\\n"
  else if c = '\r' then "\\r"
  else if c = '\t' then "\\t"
  else if c = '<' then "\\u003c"
  else if c = '>' then "\\u003e"
  else if c = '&' then "\\u0026"
  else if c.toNat < 32 then
    "\\u00" ++ String.mk [hexDigit (c.toNat / 16), hexDigit (c.toNat % 16)]
  else if c.toNat = 8232 then "\\u2028"
  else if c.toNat = 8233 then "\\u2029"
  else String.singleton c

/-- Go JSON string quoting. -/
def goQuote (s : String) : String :=
  "\"" ++ String.join (s.data.map goEscapeChar) ++ "\""

/-- Indentation padding used by `json.MarshalIndent(v, "", "  ")`. -/
def pad (depth : Nat) : String :=
  String.mk (List.replicate (2 * depth) ' ')

mutual

/-- Rendering of a JSON value in the style of Go
`json.MarshalIndent(v, "", "  ")`. -/
def renderJson (depth : Nat) : Json → String
  | .null => "null"
  | .bool true => "true"
  | .bool false => "false"
  | .num n => toString n
  | .str s => goQuote s
  | .arr [] => "[]"
  | .arr (x :: xs) =>
    "[\n" ++ renderArrItems (depth + 1) x xs ++ "\n" ++ pad depth ++ "]"
  | .obj [] => "\x7b\x7d"
  | .obj ((k, v) :: fs) =>
    "\x7b\n" ++ renderObjItems (depth + 1) k v fs ++ "\n" ++ pad depth ++ "\x7d"
termination_by j => sizeOf j

/-- Comma-and-newline separated array items at the given depth. -/
def renderArrItems (depth : Nat) (x : Json) : List Json → String
  | [] => pad depth ++ renderJson depth x
  | y :: ys => pad depth ++ renderJson depth x ++ ",\n" ++ renderArrItems depth y ys
termination_by xs => sizeOf x + sizeOf xs

/-- Comma-and-newline separated object fields at the given depth. -/
def renderObjItems (depth : Nat) (k : String) (v : Json) :
    List (String × Json) → String
  | [] => pad depth ++ goQuote k ++ ": " ++ renderJson depth v
  | (k2, v2) :: gs =>
    pad depth ++ goQuote k ++ ": " ++ renderJson depth v ++ ",\n" ++
      renderObjItems depth k2 v2 gs
termination_by gs => sizeOf v + sizeOf gs

end

/-- Go `PassesStatus.MarshalJSON`: marshal the dynamic value directly. -/
def passesToJson : PassesStatus → Json
  | .vnil => .null
  | .vbool b => .bool b
  | .vstr s => .str s

/-- JSON value produced by Go when marshalling one `PRD`, following the
struct tags and field order of `internal/prd/prd.go`; `activePlan` carries
`omitempty`. -/
def toJsonPRD (p : PRD) : Json :=
  .obj ([("id", .str p.ID),
         ("description", .str p.Description),
         ("acceptanceCriteria", .arr (p.AcceptanceCriteria.map Json.str)),
         ("priority", .num p.Priority),
         ("passes", passesToJson p.Passes),
         ("notes", .str p.Notes)] ++
        (if p.ActivePlan = "" then [] else [("activePlan", .str p.ActivePlan)]))

/-- JSON value produced by Go when marshalling the whole store. -/
def toJsonPRDFileData (p : PRDFileData) : Json :=
  .obj [("prds", .arr (p.PRDs.map toJsonPRD))]

/-- Go `json.MarshalIndent(prdFile, "", "  ")` as used by `Save`. -/
def marshalIndentPRDFileData (p : PRDFileData) : String :=
  renderJson 0 (toJsonPRDFileData p)

/-- Go `Save` from `internal/prd/prd.go` lines 128-140 as a filesystem
trace: serialize with `MarshalIndent` and perform a single direct
`os.WriteFile` on the target path.  (`MarshalIndent` cannot fail on these
types, so the error branch is dead.)  There is no temp file and no rename. -/
def Save (basePath : String) (p : PRDFileData) : List FsOp :=
  [FsOp.write (prdJsonPath basePath) (marshalIndentPRDFileData p)]

/-- Atomic-save contract as worded by the spec: the final path is never
written directly; instead some temp file is written and then renamed onto
the target ("write-to-temp-then-rename or equivalent"). -/
def atomicSaveContract (ops : List FsOp) (target : String) : Prop :=
  (∀ c, FsOp.write target c ∉ ops) ∧
  (∃ tmp c, FsOp.write tmp c ∈ ops ∧ FsOp.rename tmp target ∈ ops)

/-- Signal kind constants from `internal/llm/output.go`. -/
def SignalPRDComplete : String := "PRD_COMPLETE"

/-- BAILOUT signal kind. -/
def SignalBailout : String := "BAILOUT"

/-- BLOCKED signal kind. -/
def SignalBlocked : String := "BLOCKED"

/-- ANALYSIS_COMPLETE signal kind. -/
def SignalAnalysisComplete : String := "ANALYSIS_COMPLETE"

/-- VERIFIED signal kind. -/
def SignalVerified : String := "VERIFIED"

/-- REJECTED signal kind. -/
def SignalRejected : String := "REJECTED"

/-- LOOP_RISK signal kind. -/
def SignalLoopRisk : String := "LOOP_RISK"

/-- PLAN_COMPLETE signal kind. -/
def SignalPlanComplete : String := "PLAN_COMPLETE"

/-- PLAN_SKIPPED signal kind. -/
def SignalPlanSkipped : String := "PLAN_SKIPPED"

/-- PLAN_UPDATED signal kind. -/
def SignalPlanUpdated : String := "PLAN_UPDATED"

/-- Detected control signal (`Signal` struct in `internal/llm/output.go`).
The Go field `Type` is renamed `SigType` because `Type` is reserved in
Lean. -/
structure Signal where
  SigType : String
  Details : String
  PRDID : String
deriving DecidableEq, Repr

/-- Token usage counters (`TokenStats` struct in `internal/llm/output.go`). -/
structure TokenStats where
  InputTokens : Int
  OutputTokens : Int
  TotalTokens : Int
deriving DecidableEq, Repr

/-- State of a `ConsoleHandler` from `internal/llm/output.go`.  The display
and throttling fields only drive terminal output and are omitted; the
`onTerminate` closure is modelled by the flag `hasOnTerminate` (nil or not)
together with the counter `terminateCalls` recording how many times it has
been invoked. -/
structure ConsoleHandler where
  signals : List Signal
  tokenStats : TokenStats
  tokenThreshold : Int
  output : List Char
  shouldStop : Bool
  toolCount : Int
  hasOnTerminate : Bool
  terminateCalls : Nat
deriving DecidableEq, Repr

/-- Go `NewConsoleHandler`: default threshold 100000, no terminate callback. -/
def NewConsoleHandler : ConsoleHandler :=
  ⟨[], ⟨0, 0, 0⟩, 100000, [], false, 0, false, 0⟩

/-- Go `NewConsoleHandlerWithTerminate`: custom threshold, callback set. -/
def NewConsoleHandlerWithTerminate (threshold : Int) : ConsoleHandler :=
  ⟨[], ⟨0, 0, 0⟩, threshold, [], false, 0, true, 0⟩

/-- Go `isTerminalSignal` from `internal/llm/output.go` lines 264-272. -/
def isTerminalSignal (s : Signal) : Bool :=
  s.SigType == SignalPRDComplete ||
  s.SigType == SignalBailout ||
  s.SigType == SignalBlocked ||
  s.SigType == SignalAnalysisComplete ||
  s.SigType == SignalPlanComplete ||
  s.SigType == SignalPlanSkipped

/-- Go `ConsoleHandler.OnSignal`: append the signal; terminal signals set
the stop flag. -/
def OnSignal (h : ConsoleHandler) (s : Signal) : ConsoleHandler :=
  { h with signals := h.signals ++ [s],
           shouldStop := if isTerminalSignal s then true else h.shouldStop }

/-- Go `ConsoleHandler.OnToolUse`: bump the tool counter. -/
def OnToolUse (h : ConsoleHandler) : ConsoleHandler :=
  { h with toolCount := h.toolCount + 1 }

/-- Go `ConsoleHandler.OnText`: buffer the text and reset the tool counter
(both the WORKING-ON display branch and the normal display branch do
exactly this to the handler state; the display calls are side effects
outside the model). -/
def OnText (h : ConsoleHandler) (text : List Char) : ConsoleHandler :=
  { h with output := h.output ++ text, toolCount := 0 }

/-- Go `ConsoleHandler.OnDone`: capture the result text. -/
def OnDone (h : ConsoleHandler) (result : List Char) : ConsoleHandler :=
  { h with output := h.output ++ result }

/-- Go `ConsoleHandler.OnTokenUsage` from `internal/llm/output.go` lines
182-204: input tokens are treated as a context-size snapshot and the
running MAX is kept; output tokens are added; the total is their sum; on
reaching the threshold the handler stops, appends a BAILOUT signal and
invokes the terminate callback when one is set. -/
def OnTokenUsage (h : ConsoleHandler) (usage : TokenStats) : ConsoleHandler :=
  let inTok := if usage.InputTokens > h.tokenStats.InputTokens
               then usage.InputTokens else h.tokenStats.InputTokens
  let outTok := h.tokenStats.OutputTokens + usage.OutputTokens
  let total := inTok + outTok
  let h2 := { h with tokenStats := ⟨inTok, outTok, total⟩ }
  if total ≥ h.tokenThreshold then
    { h2 with shouldStop := true,
              signals := h2.signals ++ [⟨SignalBailout, "token limit exceeded", ""⟩],
              terminateCalls :=
                if h2.hasOnTerminate then h2.terminateCalls + 1 else h2.terminateCalls }
  else h2

/-- Go `ConsoleHandler.OnTokenUsageCumulative` from `internal/llm/output.go`
lines 206-229: max for input, replace for positive cumulative output. -/
def OnTokenUsageCumulative (h : ConsoleHandler) (usage : TokenStats) : ConsoleHandler :=
  let inTok := if usage.InputTokens > h.tokenStats.InputTokens
               then usage.InputTokens else h.tokenStats.InputTokens
  let outTok := if usage.OutputTokens > 0
                then usage.OutputTokens else h.tokenStats.OutputTokens
  let total := inTok + outTok
  let h2 := { h with tokenStats := ⟨inTok, outTok, total⟩ }
  if total ≥ h.tokenThreshold then
    { h2 with shouldStop := true,
              signals := h2.signals ++ [⟨SignalBailout, "token limit exceeded", ""⟩],
              terminateCalls :=
                if h2.hasOnTerminate then h2.terminateCalls + 1 else h2.terminateCalls }
  else h2

/-- Go `ConsoleHandler.OnTokenUsage` of the revision in `src/unnamed/part_004`
lines 167-189 (the accumulating revision, matching CHANGELOG issue #58 and
the tests in `src/unnamed/part_005`): BOTH input and output tokens are
added; it also resets the tool counter after displaying. -/
def OnTokenUsageAccum (h : ConsoleHandler) (usage : TokenStats) : ConsoleHandler :=
  let inTok := h.tokenStats.InputTokens + usage.InputTokens
  let outTok := h.tokenStats.OutputTokens + usage.OutputTokens
  let total := inTok + outTok
  let h2 := { h with tokenStats := ⟨inTok, outTok, total⟩, toolCount := 0 }
  if total ≥ h.tokenThreshold then
    { h2 with shouldStop := true,
              signals := h2.signals ++ [⟨SignalBailout, "token limit exceeded", ""⟩],
              terminateCalls :=
                if h2.hasOnTerminate then h2.terminateCalls + 1 else h2.terminateCalls }
  else h2

/-- Lazy-quantifier search for the first occurrence of the terminator
`###` in the tail of a candidate match: returns the characters consumed
before the terminator and the remainder after it.  The regexp class `.`
does not match a newline, so the search fails upon reaching one. -/
def findStop : List Char → Option (List Char × List Char)
  | [] => none
  | c :: rest =>
    if c = '#' && ['#', '#'].isPrefixOf rest then some ([], rest.drop 2)
    else if c = '\n' then none
    else (findStop rest).map (fun p => (c :: p.1, p.2))

/-- Lazy-quantifier search for the first `:` (for the first capture group
of the REJECTED pattern); fails upon reaching a newline. -/
def findColon : List Char → Option (List Char × List Char)
  | [] => none
  | c :: rest =>
    if c = ':' then some ([], rest)
    else if c = '\n' then none
    else (findColon rest).map (fun p => (c :: p.1, p.2))

/-- Semantics of `(.+?)###` at a fixed start position: at least one
non-newline character, then the earliest terminator `###`.  Returns the
capture and the remainder after the terminator. -/
def lazyCapture : List Char → Option (List Char × List Char)
  | [] => none
  | c :: rest =>
    if c = '\n' then none
    else (findStop rest).map (fun p => (c :: p.1, p.2))

/-- Semantics of `(.+?):` at a fixed start position: at least one
non-newline character, then the earliest colon. -/
def colonSplit : List Char → Option (List Char × List Char)
  | [] => none
  | c :: rest =>
    if c = '\n' then none
    else (findColon rest).map (fun p => (c :: p.1, p.2))

/-- Semantics of `(.+?):(.+?)###` at a fixed start position, as in the
REJECTED pattern.  The backtracking regexp engine would extend the first
group past further colons when the second group fails, but a later colon
only shrinks the region searched for the terminator, so if the earliest
colon admits no terminator before a newline then no other split matches;
hence taking the earliest colon and then the earliest terminator is exact. -/
def rejSearch (cs : List Char) : Option (List Char × List Char × List Char) :=
  match colonSplit cs with
  | none => none
  | some (g1, after) =>
    match lazyCapture after with
    | some (g2, rest) => some (g1, g2, rest)
    | none => none

/-- Generic FindAll-style scanner, modelling Go `FindAllStringSubmatch`
for the marker patterns: at each position try the matcher; on a match emit
the captures and resume after the match, otherwise advance one character.
Structured with explicit fuel so that the definition is structurally
recursive and kernel-reducible; `scanAll` supplies sufficient fuel. -/
def scanAllFuel {α : Type} (m : List Char → Option (α × List Char)) :
    Nat → List Char → List α
  | 0, _ => []
  | _ + 1, [] => []
  | fuel + 1, c :: rest =>
    match m (c :: rest) with
    | some (r, after) => r :: scanAllFuel m fuel after
    | none => scanAllFuel m fuel rest

/-- A matcher is shrinking when a successful match consumes at least one
character. -/
def Shrinking {α : Type} (m : List Char → Option (α × List Char)) : Prop :=
  ∀ text r after, m text = some (r, after) → after.length < text.length

/-- FindAll-style scan with sufficient fuel. -/
def scanAll {α : Type} (m : List Char → Option (α × List Char))
    (text : List Char) : List α :=
  scanAllFuel m text.length text

/-- Matcher for a one-capture pattern `KEY(.+?)###` (the literal part of
the marker, e.g. `###VERIFIED:`, followed by a lazy capture and `###`). -/
def matchOne (key : List Char) (text : List Char) :
    Option (List Char × List Char) :=
  if key.isPrefixOf text then lazyCapture (text.drop key.length) else none

/-- Matcher for the two-capture pattern `###REJECTED:(.+?):(.+?)###`. -/
def matchTwo (key : List Char) (text : List Char) :
    Option ((List Char × List Char) × List Char) :=
  if key.isPrefixOf text then
    match rejSearch (text.drop key.length) with
    | some (g1, g2, rest) => some ((g1, g2), rest)
    | none => none
  else none

/-- Substring test, modelling `regexp.MatchString` for a fixed literal
pattern with no metacharacters (`###PRD_COMPLETE###`,
`###ANALYSIS_COMPLETE###`). -/
def containsSub (pat : List Char) : List Char → Bool
  | [] => pat.isEmpty
  | c :: rest => pat.isPrefixOf (c :: rest) || containsSub pat rest

/-- Go `unicode.IsSpace` over the whitespace characters relevant here
(ASCII whitespace plus NEL and NBSP). -/
def goIsSpace (c : Char) : Bool :=
  c = ' ' || c = '\t' || c = '\n' || (c.toNat = 11) || (c.toNat = 12) ||
  c = '\r' || (c.toNat = 133) || (c.toNat = 160)

/-- Go `strings.TrimSpace` on a character list, returned as a `String`. -/
def goTrimSpace (cs : List Char) : String :=
  String.mk (((cs.dropWhile goIsSpace).reverse.dropWhile goIsSpace).reverse)

/-- Literal prefix of the VERIFIED marker pattern. -/
def verifiedKey : List Char := "###VERIFIED:".data

/-- Literal prefix of the BAILOUT marker pattern. -/
def bailoutKey : List Char := "###BAILOUT:".data

/-- Literal prefix of the BLOCKED marker pattern. -/
def blockedKey : List Char := "###BLOCKED:".data

/-- Literal prefix of the REJECTED marker pattern. -/
def rejectedKey : List Char := "###REJECTED:".data

/-- Literal prefix of the LOOP_RISK marker pattern. -/
def loopRiskKey : List Char := "###LOOP_RISK:".data

/-- Literal prefix of the PLAN_COMPLETE marker pattern. -/
def planCompleteKey : List Char := "###PLAN_COMPLETE:".data

/-- Literal prefix of the PLAN_SKIPPED marker pattern. -/
def planSkippedKey : List Char := "###PLAN_SKIPPED:".data

/-- Literal prefix of the PLAN_UPDATED marker pattern. -/
def planUpdatedKey : List Char := "###PLAN_UPDATED:".data

/-- Literal PRD_COMPLETE marker. -/
def prdCompleteLit : List Char := "###PRD_COMPLETE###".data

/-- Literal ANALYSIS_COMPLETE marker. -/
def analysisCompleteLit : List Char := "###ANALYSIS_COMPLETE###".data

/-- Go `checkSignals` from `internal/llm/output.go` lines 374-461, as the
list of signals it hands to `handler.OnSignal`, in emission order: one
PRD_COMPLETE on a `MatchString` hit; the FIRST match only for BAILOUT and
BLOCKED (`FindStringSubmatch`); one ANALYSIS_COMPLETE on a hit; then ALL
matches (`FindAllStringSubmatch`) of VERIFIED, REJECTED, LOOP_RISK,
PLAN_COMPLETE, PLAN_SKIPPED and PLAN_UPDATED, with payloads trimmed. -/
def checkSignals (text : List Char) : List Signal :=
  (if containsSub prdCompleteLit text then [⟨SignalPRDComplete, "", ""⟩] else [])
  ++ (match (scanAll (matchOne bailoutKey) text).head? with
      | some d => [⟨SignalBailout, goTrimSpace d, ""⟩]
      | none => [])
  ++ (match (scanAll (matchOne blockedKey) text).head? with
      | some d => [⟨SignalBlocked, goTrimSpace d, ""⟩]
      | none => [])
  ++ (if containsSub analysisCompleteLit text
      then [⟨SignalAnalysisComplete, "", ""⟩] else [])
  ++ (scanAll (matchOne verifiedKey) text).map
      (fun d => ⟨SignalVerified, "", goTrimSpace d⟩)
  ++ (scanAll (matchTwo rejectedKey) text).map
      (fun g => ⟨SignalRejected, goTrimSpace g.2, goTrimSpace g.1⟩)
  ++ (scanAll (matchOne loopRiskKey) text).map
      (fun d => ⟨SignalLoopRisk, "", goTrimSpace d⟩)
  ++ (scanAll (matchOne planCompleteKey) text).map
      (fun d => ⟨SignalPlanComplete, "", goTrimSpace d⟩)
  ++ (scanAll (matchOne planSkippedKey) text).map
      (fun d => ⟨SignalPlanSkipped, goTrimSpace d, ""⟩)
  ++ (scanAll (matchOne planUpdatedKey) text).map
      (fun d => ⟨SignalPlanUpdated, "", goTrimSpace d⟩)

/-- Feeding the signal list found in a chunk of text to the handler, as Go
`checkSignals` does through `handler.OnSignal`. -/
def checkSignalsH (h : ConsoleHandler) (text : List Char) : ConsoleHandler :=
  (checkSignals text).foldl OnSignal h

/-- One content block of a full-message stream event (`ContentBlock`). -/
structure ContentBlock where
  btype : String
  text : List Char
  name : String
deriving DecidableEq, Repr

/-- Usage block on a stream event (`UsageBlock`). -/
structure UsageBlock where
  input_tokens : Int
  output_tokens : Int
deriving DecidableEq, Repr

/-- Message payload of a stream event (`MessageContent`). -/
structure MessageContent where
  content : List ContentBlock
  usage : Option UsageBlock
deriving DecidableEq, Repr

/-- Delta payload of a stream event (`DeltaContent`). -/
structure DeltaContent where
  dtype : String
  text : List Char
deriving DecidableEq, Repr

/-- One decoded stream event (`StreamEvent` in `internal/llm/output.go`). -/
structure StreamEvent where
  etype : String
  message : Option MessageContent
  result : List Char
  delta : Option DeltaContent
  usage : Option UsageBlock
deriving DecidableEq, Repr

/-- One line of the subprocess stream, after the scanner/JSON-decode
boundary of `ParseStream`: an empty line, a line that fails
`json.Unmarshal` (skipped silently), or a decoded event. -/
inductive StreamLine where
  | empty : StreamLine
  | malformed : StreamLine
  | event (e : StreamEvent) : StreamLine
deriving DecidableEq, Repr

/-- Processing of one content block in the `assistant` case. -/
def processBlock (h : ConsoleHandler) (b : ContentBlock) : ConsoleHandler :=
  if b.btype = "tool_use" then OnToolUse h
  else if b.btype = "text" then checkSignalsH (OnText h b.text) b.text
  else h

/-- The switch body of `ParseStream` for one decoded event
(`internal/llm/output.go` lines 310-359). -/
def processEvent (h : ConsoleHandler) (e : StreamEvent) : ConsoleHandler :=
  if e.etype = "message_start" then
    match e.message with
    | some m =>
      match m.usage with
      | some u => OnTokenUsage h ⟨u.input_tokens, u.output_tokens, 0⟩
      | none => h
    | none => h
  else if e.etype = "content_block_delta" then
    match e.delta with
    | some d =>
      if d.dtype = "text_delta" then checkSignalsH (OnText h d.text) d.text
      else h
    | none => h
  else if e.etype = "message_delta" then
    match e.usage with
    | some u => OnTokenUsageCumulative h ⟨0, u.output_tokens, 0⟩
    | none => h
  else if e.etype = "assistant" then
    match e.message with
    | some m =>
      let h2 :=
        match m.usage with
        | some u => OnTokenUsage h ⟨u.input_tokens, u.output_tokens, 0⟩
        | none => h
      m.content.foldl processBlock h2
    | none => h
  else if e.etype = "result" then
    OnDone (checkSignalsH h e.result) e.result
  else h

/-- Result of one `ParseStream` run: the final handler, the number of
invocations of the `onTerminate` callback passed to `ParseStream`, and the
number of stream lines actually read. -/
structure ParseResult where
  handler : ConsoleHandler
  terminateCalls : Nat
  consumed : Nat
deriving DecidableEq, Repr

/-- Go `ParseStream` from `internal/llm/output.go` lines 292-371: read
lines in order; skip empty and undecodable lines (these `continue` past
the termination check); process each decoded event, and after each one
consult `handler.ShouldTerminate()`: when it reports true, invoke the
driver-level `onTerminate` callback once and return, reading nothing
further. -/
def ParseStream (h : ConsoleHandler) : List StreamLine → ParseResult
  | [] => ⟨h, 0, 0⟩
  | line :: rest =>
    match line with
    | .empty =>
      let r := ParseStream h rest
      ⟨r.handler, r.terminateCalls, r.consumed + 1⟩
    | .malformed =>
      let r := ParseStream h rest
      ⟨r.handler, r.terminateCalls, r.consumed + 1⟩
    | .event e =>
      let h2 := processEvent h e
      if h2.shouldStop then ⟨h2, 1, 1⟩
      else
        let r := ParseStream h2 rest
        ⟨r.handler, r.terminateCalls, r.consumed + 1⟩

/-- Iteration snapshot (`IterationState` in `internal/cli/iteration_state.go`). -/
structure IterationState where
  OpenCount : Int
  ActiveCount : Int
  PendingCount : Int
  CompleteCount : Int
  SignalTypes : List String
deriving DecidableEq, Repr

/-- The productive-signal membership map built inside `IsIdle`. -/
def productiveSignals (s : String) : Bool :=
  s == SignalVerified || s == SignalRejected || s == SignalPlanComplete ||
  s == SignalPlanUpdated || s == SignalPRDComplete

/-- The non-productive-signal membership map of `allNonProductive`. -/
def nonProductiveSignals (s : String) : Bool :=
  s == SignalLoopRisk || s == SignalAnalysisComplete || s == SignalBlocked

/-- Go `allNonProductive` from `internal/cli/iteration_state.go` lines 71-85. -/
def allNonProductive (signals : List String) : Bool :=
  signals.all nonProductiveSignals

/-- Go `IterationState.IsIdle` from `internal/cli/iteration_state.go` lines
50-68: return false on the first productive signal; otherwise idle when
the signal list is empty or consists only of non-productive kinds. -/
def IsIdle (s : IterationState) : Bool :=
  if s.SignalTypes.any productiveSignals then false
  else s.SignalTypes.isEmpty || allNonProductive s.SignalTypes

/-- First-match in-place record update, modelling a Go mutation through the
pointer returned by `FindByID` (the first record with the given id). -/
def updateByID (l : List PRD) (id : String) (f : PRD → PRD) : List PRD :=
  match l with
  | [] => []
  | r :: rest => if r.ID = id then f r :: rest else r :: updateByID rest id f

/-- Appending a rejection reason to a record's notes, newline separated. -/
def appendReason (notes reason : String) : String :=
  if notes = "" then reason else notes ++ "\n" ++ reason

/-- Modelled from the spec: the store mutation driven by one reviewer
signal.  In the implementation these transitions are carried out by the
reviewer LLM subprocess editing `prd.json` as instructed by the embedded
reviewer prompt template (which is not under src/); `reviewer.Run` only
collects the signals.  Per the spec: each `VERIFIED:id` moves the Pending
record with that id to Complete and clears its plan reference; each
`REJECTED:id:reason` moves it to Open and appends the reason to its notes;
all other signal kinds mutate nothing. -/
def applyReviewerSignal (s : PRDFileData) (sig : Signal) : PRDFileData :=
  if sig.SigType = SignalVerified then
    ⟨updateByID s.PRDs sig.PRDID (fun p =>
      if p.Passes.IsPending then
        { p with Passes := .vbool true, ActivePlan := "" }
      else p)⟩
  else if sig.SigType = SignalRejected then
    ⟨updateByID s.PRDs sig.PRDID (fun p =>
      if p.Passes.IsPending then
        { p with Passes := .vbool false, Notes := appendReason p.Notes sig.Details }
      else p)⟩
  else s

/-- Modelled from the spec: one reviewer invocation processes ALL returned
signals, in order. -/
def applyReviewerSignals (s : PRDFileData) (sigs : List Signal) : PRDFileData :=
  sigs.foldl applyReviewerSignal s

/-- Sum of the input-token fields of a list of usage snapshots. -/
def sumInputTokens (l : List TokenStats) : Int :=
  (l.map (fun u => u.InputTokens)).sum

/-- Sum of the output-token fields of a list of usage snapshots. -/
def sumOutputTokens (l : List TokenStats) : Int :=
  (l.map (fun u => u.OutputTokens)).sum

/-- A full one-capture repeatable marker: literal key, payload, terminator
`###` (e.g. `###VERIFIED:` ++ payload ++ `###`). -/
def oneArgMarkerOf (key x : List Char) : List Char :=
  key ++ x ++ '#' :: '#' :: '#' :: []

/-- A full REJECTED marker: `###REJECTED:` id `:` reason `###`, built from
the pair (id, reason). -/
def rejMarkerOf (g : List Char × List Char) : List Char :=
  rejectedKey ++ g.1 ++ ':' :: (g.2 ++ '#' :: '#' :: '#' :: [])

/-- A chunk of text assembled from alternating prose and markers: leading
prose, then for each segment a marker built from its payload followed by
that segment's trailing prose.  `marksText mark p0 [(x1, p1), (x2, p2)]`
is `p0 ++ mark x1 ++ p1 ++ mark x2 ++ p2`; with it a single statement
covers any number of marker occurrences in one chunk. -/
def marksText {β : Type} (mark : β → List Char) :
    List Char → List (β × List Char) → List Char
  | p0, [] => p0
  | p0, (x, p) :: rest => p0 ++ mark x ++ marksText mark p rest

theorem findStop_length {cs b a : List Char} (h : findStop cs = some (b, a)) :
    b.length + 3 + a.length = cs.length := by
  induction cs generalizing b a with
  | nil => simp [findStop] at h
  | cons c rest ih =>
    rw [findStop] at h
    by_cases h1 : c = '#' && ['#', '#'].isPrefixOf rest
    · rw [if_pos h1] at h
      have h2 : 2 ≤ rest.length := by
        rcases Bool.and_eq_true _ _ |>.mp h1 with ⟨_, hp⟩
        have := List.IsPrefix.length_le (List.isPrefixOf_iff_prefix.mp hp)
        simpa using this
      obtain ⟨hb, ha⟩ : b = [] ∧ a = rest.drop 2 := by
        constructor <;> cases h <;> rfl
      subst hb; subst ha
      simp [List.length_drop]
      omega
    · rw [if_neg h1] at h
      by_cases h2 : c = '\n'
      · simp [h2] at h
      · rw [if_neg h2] at h
        cases hf : findStop rest with
        | none => rw [hf] at h; cases h
        | some q =>
          obtain ⟨b0, a0⟩ := q
          rw [hf] at h
          obtain ⟨hb, ha⟩ : b = c :: b0 ∧ a = a0 := by
            constructor <;> cases h <;> rfl
          subst hb; subst ha
          have := ih hf
          simp
          omega

theorem findColon_length {cs b a : List Char} (h : findColon cs = some (b, a)) :
    b.length + 1 + a.length = cs.length := by
  induction cs generalizing b a with
  | nil => simp [findColon] at h
  | cons c rest ih =>
    rw [findColon] at h
    by_cases h1 : c = ':'
    · rw [if_pos h1] at h
      obtain ⟨hb, ha⟩ : b = [] ∧ a = rest := by
        constructor <;> cases h <;> rfl
      subst hb; subst ha
      simp
      omega
    · rw [if_neg h1] at h
      by_cases h2 : c = '\n'
      · simp [h2] at h
      · rw [if_neg h2] at h
        cases hf : findColon rest with
        | none => rw [hf] at h; cases h
        | some q =>
          obtain ⟨b0, a0⟩ := q
          rw [hf] at h
          obtain ⟨hb, ha⟩ : b = c :: b0 ∧ a = a0 := by
            constructor <;> cases h <;> rfl
          subst hb; subst ha
          have := ih hf
          simp
          omega

theorem lazyCapture_length {cs p a : List Char}
    (h : lazyCapture cs = some (p, a)) :
    p.length + 3 + a.length = cs.length ∧ 1 ≤ p.length := by
  cases cs with
  | nil => simp [lazyCapture] at h
  | cons c rest =>
    rw [lazyCapture] at h
    by_cases h1 : c = '\n'
    · simp [h1] at h
    · rw [if_neg h1] at h
      cases hf : findStop rest with
      | none => rw [hf] at h; cases h
      | some q =>
        obtain ⟨b0, a0⟩ := q
        rw [hf] at h
        obtain ⟨hb, ha⟩ : p = c :: b0 ∧ a = a0 := by
          constructor <;> cases h <;> rfl
        subst hb; subst ha
        have := findStop_length hf
        simp
        omega

theorem colonSplit_length {cs p a : List Char}
    (h : colonSplit cs = some (p, a)) :
    p.length + 1 + a.length = cs.length ∧ 1 ≤ p.length := by
  cases cs with
  | nil => simp [colonSplit] at h
  | cons c rest =>
    rw [colonSplit] at h
    by_cases h1 : c = '\n'
    · simp [h1] at h
    · rw [if_neg h1] at h
      cases hf : findColon rest with
      | none => rw [hf] at h; cases h
      | some q =>
        obtain ⟨b0, a0⟩ := q
        rw [hf] at h
        obtain ⟨hb, ha⟩ : p = c :: b0 ∧ a = a0 := by
          constructor <;> cases h <;> rfl
        subst hb; subst ha
        have := findColon_length hf
        simp
        omega

theorem rejSearch_length {cs g1 g2 rest : List Char}
    (h : rejSearch cs = some (g1, g2, rest)) : rest.length < cs.length := by
  simp only [rejSearch] at h
  cases hc : colonSplit cs with
  | none => simp [hc] at h
  | some p =>
    obtain ⟨a1, after⟩ := p
    simp only [hc] at h
    cases hl : lazyCapture after with
    | none => simp [hl] at h
    | some q =>
      obtain ⟨b2, r2⟩ := q
      simp [hl] at h
      obtain ⟨h1, h2, h3⟩ := h
      subst h1; subst h2; subst h3
      have hcl := colonSplit_length hc
      have hll := lazyCapture_length hl
      omega

theorem scanAllFuel_irrel {α : Type} {m : List Char → Option (α × List Char)}
    (hm : Shrinking m) :
    ∀ (f g : Nat) (text : List Char), text.length ≤ f → text.length ≤ g →
      scanAllFuel m f text = scanAllFuel m g text := by
  intro f
  induction f with
  | zero =>
    intro g text hf hg
    have : text = [] := List.length_eq_zero.mp (Nat.le_zero.mp hf)
    subst this
    cases g <;> simp [scanAllFuel]
  | succ f ih =>
    intro g text hf hg
    cases text with
    | nil => cases g <;> simp [scanAllFuel]
    | cons c rest =>
      cases g with
      | zero => simp at hg
      | succ g =>
        cases hmm : m (c :: rest) with
        | none =>
          simp only [scanAllFuel, hmm]
          exact ih g rest (by simp at hf; omega) (by simp at hg; omega)
        | some p =>
          obtain ⟨r, after⟩ := p
          have hlen := hm _ _ _ hmm
          simp only [scanAllFuel, hmm]
          simp at hf hg hlen
          rw [ih g after (by omega) (by omega)]

theorem scanAll_nil {α : Type} (m : List Char → Option (α × List Char)) :
    scanAll m [] = [] := rfl

theorem scanAll_skip {α : Type} {m : List Char → Option (α × List Char)}
    (c : Char) (rest : List Char)
    (hno : m (c :: rest) = none) :
    scanAll m (c :: rest) = scanAll m rest := by
  rw [scanAll, scanAll]
  rw [show (c :: rest).length = rest.length + 1 from by simp]
  simp only [scanAllFuel, hno]

theorem scanAll_step {α : Type} {m : List Char → Option (α × List Char)}
    (hm : Shrinking m) (c : Char) (rest : List Char) (r : α) (after : List Char)
    (hyes : m (c :: rest) = some (r, after)) :
    scanAll m (c :: rest) = r :: scanAll m after := by
  have hlen := hm _ _ _ hyes
  rw [scanAll, scanAll]
  rw [show (c :: rest).length = rest.length + 1 from by simp]
  simp only [scanAllFuel, hyes]
  have : after.length ≤ rest.length := by simp at hlen; omega
  rw [scanAllFuel_irrel hm rest.length after.length after this (le_refl _)]

theorem matchOne_shrinking (key : List Char) : Shrinking (matchOne key) := by
  intro text r after h
  rw [matchOne] at h
  by_cases hp : key.isPrefixOf text
  · rw [if_pos hp] at h
    have := (lazyCapture_length h).1
    have hd : (text.drop key.length).length = text.length - key.length := by
      simp [List.length_drop]
    omega
  · rw [if_neg hp] at h; cases h

theorem matchTwo_shrinking (key : List Char) : Shrinking (matchTwo key) := by
  intro text r after h
  rw [matchTwo] at h
  by_cases hp : key.isPrefixOf text
  · rw [if_pos hp] at h
    cases hr : rejSearch (text.drop key.length) with
    | none => rw [hr] at h; cases h
    | some q =>
      obtain ⟨g1, g2, rest⟩ := q
      rw [hr] at h
      obtain ⟨hx, hy⟩ : r = (g1, g2) ∧ after = rest := by
        constructor <;> cases h <;> rfl
      subst hy
      have := rejSearch_length hr
      have hd : (text.drop key.length).length = text.length - key.length := by
        simp [List.length_drop]
      by_cases hk : key = []
      · subst hk; simpa using this
      · have : 1 ≤ key.length := by
          cases key with
          | nil => exact absurd rfl hk
          | cons _ _ => simp
        have hkl := List.IsPrefix.length_le (List.isPrefixOf_iff_prefix.mp hp)
        omega
  · rw [if_neg hp] at h; cases h

/-- Claim C1: the claim states that the tracker accumulates `input_tokens`
by simple addition across snapshots.  `ConsoleHandler.OnTokenUsage` in
`src/internal/llm/output.go` instead keeps the running MAX of the input
snapshots: feeding (35000,100) then (40000,200) leaves InputTokens at
40000 (total 40300), not the sum 75000 (total 75300) that the claim, the
revision in `src/unnamed/part_004` (`OnTokenUsageAccum`), CHANGELOG issue
#58 and the test `TestOnTokenUsage_InputTokensAccumulated` in
`src/unnamed/part_005` all require.  Output tokens are summed by both
revisions. -/
theorem c1_input_token_divergence :
    ([⟨35000, 100, 0⟩, ⟨40000, 200, 0⟩].foldl OnTokenUsage
        NewConsoleHandler).tokenStats = ⟨40000, 300, 40300⟩ ∧
    ([⟨35000, 100, 0⟩, ⟨40000, 200, 0⟩].foldl OnTokenUsageAccum
        NewConsoleHandler).tokenStats = ⟨75000, 300, 75300⟩ ∧
    (40000 : Int) ≠ 75000 := by
  refine ⟨rfl, rfl, by decide⟩

/-- Claim C5 counterexample: `Save` does not satisfy the
write-to-temp-then-rename contract; its trace is a single direct write of
the target path. -/
theorem c5_save_not_atomic :
    ¬ atomicSaveContract
        (Save "/repo" ⟨[⟨"a", "demo", ["works"], 1, .vbool false, "", ""⟩]⟩)
        (prdJsonPath "/repo") := by
  intro hca
  exact hca.1
    (marshalIndentPRDFileData ⟨[⟨"a", "demo", ["works"], 1, .vbool false, "", ""⟩]⟩)
    (by simp [Save])

/-- Claim C5 as amended: `Save` serializes the store with
`MarshalIndent` (stable two-space indentation) and performs exactly one
filesystem operation: an in-place write of the target file.  No rename is
ever performed, so the write is not atomic. -/
theorem c5_save_in_place (basePath : String) (p : PRDFileData) :
    Save basePath p =
      [FsOp.write (prdJsonPath basePath) (marshalIndentPRDFileData p)] ∧
    (∀ src dst, FsOp.rename src dst ∉ Save basePath p) := by
  refine ⟨rfl, ?_⟩
  intro src dst hmem
  simp [Save] at hmem

/-- Claim C5 witness: the amended statement at a concrete store. -/
theorem c5_save_in_place_witness :
    Save "/w" ⟨[]⟩ = [FsOp.write (prdJsonPath "/w") (marshalIndentPRDFileData ⟨[]⟩)] :=
  (c5_save_in_place "/w" ⟨[]⟩).1

/-- Claim C6 counterexample: deserializing JSON `null` into the status
field is NOT a hard error; Go `json.Unmarshal` of `null` into the local
bool variable is a silent no-op that reports success, so the code stores
`false` (Open). -/
theorem c6_null_is_accepted :
    unmarshalPasses Json.null = .ok (.vbool false) ∧
    ∀ e, unmarshalPasses Json.null ≠ .error e := by
  exact ⟨rfl, fun e h => Except.noConfusion h⟩

/-- Claim C6 as amended: status deserialization accepts exactly the four
wire values false/"active"/"pending"/true, plus JSON `null` (which Go's
null-unmarshalling no-op turns into `false`, i.e. Open); every other JSON
value (any other string, a number, an object, an array) is a hard error,
and every successfully decoded status is one of the four states. -/
theorem c6_passes_wire_union (j : Json) :
    ((∃ v, unmarshalPasses j = .ok v) ↔
      (j = .bool true ∨ j = .bool false ∨ j = .str "active" ∨
       j = .str "pending" ∨ j = .null)) ∧
    (∀ v, unmarshalPasses j = .ok v →
      (v = .vbool false ∨ v = .vbool true ∨
       v = .vstr "active" ∨ v = .vstr "pending")) := by
  cases j with
  | null =>
    refine ⟨⟨fun _ => by simp, fun _ => ⟨.vbool false, rfl⟩⟩, ?_⟩
    intro v hv
    cases hv
    exact Or.inl rfl
  | bool b =>
    cases b
    · refine ⟨⟨fun _ => by simp, fun _ => ⟨.vbool false, rfl⟩⟩, ?_⟩
      intro v hv
      cases hv
      exact Or.inl rfl
    · refine ⟨⟨fun _ => by simp, fun _ => ⟨.vbool true, rfl⟩⟩, ?_⟩
      intro v hv
      cases hv
      exact Or.inr (Or.inl rfl)
  | num n =>
    refine ⟨⟨?_, by simp⟩, ?_⟩
    · rintro ⟨v, hv⟩
      exact Except.noConfusion hv
    · intro v hv
      exact Except.noConfusion hv
  | str s =>
    by_cases ha : s = "active"
    · subst ha
      refine ⟨⟨fun _ => by simp, fun _ => ⟨.vstr "active", rfl⟩⟩, ?_⟩
      intro v hv
      cases hv
      exact Or.inr (Or.inr (Or.inl rfl))
    · by_cases hp : s = "pending"
      · subst hp
        refine ⟨⟨fun _ => by simp, fun _ => ⟨.vstr "pending", rfl⟩⟩, ?_⟩
        intro v hv
        cases hv
        exact Or.inr (Or.inr (Or.inr rfl))
      · have herr : unmarshalPasses (.str s) =
            .error ("invalid passes string value: " ++ s) := by
          rw [unmarshalPasses]
          simp [goUnmarshalBool, goUnmarshalString, ha, hp]
        refine ⟨⟨?_, ?_⟩, ?_⟩
        · rintro ⟨v, hv⟩
          rw [herr] at hv
          exact Except.noConfusion hv
        · rintro (h | h | h | h | h) <;> simp_all
        · intro v hv
          rw [herr] at hv
          exact Except.noConfusion hv
  | arr items =>
    refine ⟨⟨?_, by simp⟩, ?_⟩
    · rintro ⟨v, hv⟩
      exact Except.noConfusion hv
    · intro v hv
      exact Except.noConfusion hv
  | obj fields =>
    refine ⟨⟨?_, by simp⟩, ?_⟩
    · rintro ⟨v, hv⟩
      exact Except.noConfusion hv
    · intro v hv
      exact Except.noConfusion hv

/-- Claim C6 witness: the amended union theorem applied at the rejected
value "weird" and at the accepted value "pending". -/
theorem c6_passes_wire_union_witness :
    ¬ (∃ v, unmarshalPasses (Json.str "weird") = .ok v) ∧
    (∃ v, unmarshalPasses (Json.str "pending") = .ok v) := by
  constructor
  · intro hv
    rcases (c6_passes_wire_union (Json.str "weird")).1.mp hv with h | h | h | h | h <;>
      simp_all
  · exact (c6_passes_wire_union (Json.str "pending")).1.mpr (by simp)

/-- Claim C10: an iteration whose observed signal kinds are all drawn from
the non-productive set (LOOP_RISK, ANALYSIS_COMPLETE, BLOCKED) is
classified idle — in particular an iteration with no signals — and any
iteration containing a VERIFIED signal is classified productive. -/
theorem c10_idle_classifier (s : IterationState) :
    ((∀ t ∈ s.SignalTypes,
        t = SignalLoopRisk ∨ t = SignalAnalysisComplete ∨ t = SignalBlocked) →
      IsIdle s = true) ∧
    (SignalVerified ∈ s.SignalTypes → IsIdle s = false) := by
  constructor
  · intro h
    have hany : s.SignalTypes.any productiveSignals = false := by
      rw [List.any_eq_false]
      intro t ht
      rcases h t ht with h1 | h1 | h1 <;> subst h1 <;> decide
    have hall : allNonProductive s.SignalTypes = true := by
      rw [allNonProductive, List.all_eq_true]
      intro t ht
      rcases h t ht with h1 | h1 | h1 <;> subst h1 <;> decide
    rw [IsIdle, hany]
    simp [hall]
  · intro hmem
    have hany : s.SignalTypes.any productiveSignals = true :=
      List.any_eq_true.mpr ⟨SignalVerified, hmem, by decide⟩
    rw [IsIdle, hany]
    simp

/-- Claim C10 witness: the classifier theorem applied to the iterations
named by the spec: only ANALYSIS_COMPLETE and LOOP_RISK (idle), no signals
at all (idle), and a VERIFIED-containing iteration (productive). -/
theorem c10_idle_classifier_witness :
    IsIdle ⟨1, 0, 1, 0, [SignalAnalysisComplete, SignalLoopRisk]⟩ = true ∧
    IsIdle ⟨1, 0, 1, 0, []⟩ = true ∧
    IsIdle ⟨1, 0, 1, 0, [SignalVerified, SignalAnalysisComplete]⟩ = false := by
  refine ⟨?_, ?_, ?_⟩
  · exact (c10_idle_classifier _).1 (by intro t ht; fin_cases ht <;> simp [SignalAnalysisComplete, SignalLoopRisk])
  · exact (c10_idle_classifier _).1 (by intro t ht; cases ht)
  · exact (c10_idle_classifier _).2 (by simp)

theorem OnTokenUsage_below (h : ConsoleHandler) (u : TokenStats)
    (hlt : (if u.InputTokens > h.tokenStats.InputTokens then u.InputTokens
            else h.tokenStats.InputTokens) +
           (h.tokenStats.OutputTokens + u.OutputTokens) < h.tokenThreshold) :
    OnTokenUsage h u =
      { h with tokenStats :=
          ⟨(if u.InputTokens > h.tokenStats.InputTokens then u.InputTokens
            else h.tokenStats.InputTokens),
           h.tokenStats.OutputTokens + u.OutputTokens,
           (if u.InputTokens > h.tokenStats.InputTokens then u.InputTokens
            else h.tokenStats.InputTokens) +
           (h.tokenStats.OutputTokens + u.OutputTokens)⟩ } := by
  rw [OnTokenUsage]
  simp only []
  rw [if_neg (by omega)]

theorem tokenFoldBelow (snaps : List TokenStats) :
    ∀ h : ConsoleHandler,
      (∀ u ∈ snaps, 0 ≤ u.InputTokens ∧ 0 ≤ u.OutputTokens) →
      0 ≤ h.tokenStats.InputTokens → 0 ≤ h.tokenStats.OutputTokens →
      h.tokenStats.InputTokens + sumInputTokens snaps +
        h.tokenStats.OutputTokens + sumOutputTokens snaps < h.tokenThreshold →
      (snaps.foldl OnTokenUsage h).shouldStop = h.shouldStop ∧
      (snaps.foldl OnTokenUsage h).terminateCalls = h.terminateCalls ∧
      (snaps.foldl OnTokenUsage h).signals = h.signals := by
  induction snaps with
  | nil => intro h _ _ _ _; exact ⟨rfl, rfl, rfl⟩
  | cons u rest ih =>
    intro h hnn hin hout hsum
    have hu := hnn u (List.mem_cons_self u rest)
    have hrestnn : ∀ v ∈ rest, 0 ≤ v.InputTokens ∧ 0 ≤ v.OutputTokens :=
      fun v hv => hnn v (List.mem_cons_of_mem u hv)
    have hsumin : 0 ≤ sumInputTokens rest := by
      apply List.sum_nonneg
      intro x hx
      simp only [List.mem_map] at hx
      obtain ⟨v, hv, rfl⟩ := hx
      exact (hrestnn v hv).1
    have hsumout : 0 ≤ sumOutputTokens rest := by
      apply List.sum_nonneg
      intro x hx
      simp only [List.mem_map] at hx
      obtain ⟨v, hv, rfl⟩ := hx
      exact (hrestnn v hv).2
    have hsplit_in : sumInputTokens (u :: rest) = u.InputTokens + sumInputTokens rest := by
      simp [sumInputTokens]
    have hsplit_out : sumOutputTokens (u :: rest) = u.OutputTokens + sumOutputTokens rest := by
      simp [sumOutputTokens]
    rw [hsplit_in, hsplit_out] at hsum
    have hbound : (if u.InputTokens > h.tokenStats.InputTokens then u.InputTokens
                   else h.tokenStats.InputTokens) +
                  (h.tokenStats.OutputTokens + u.OutputTokens) < h.tokenThreshold := by
      by_cases hc : u.InputTokens > h.tokenStats.InputTokens
      · rw [if_pos hc]; omega
      · rw [if_neg hc]; omega
    rw [List.foldl_cons, OnTokenUsage_below h u hbound]
    have := ih { h with tokenStats :=
        ⟨(if u.InputTokens > h.tokenStats.InputTokens then u.InputTokens
          else h.tokenStats.InputTokens),
         h.tokenStats.OutputTokens + u.OutputTokens,
         (if u.InputTokens > h.tokenStats.InputTokens then u.InputTokens
          else h.tokenStats.InputTokens) +
         (h.tokenStats.OutputTokens + u.OutputTokens)⟩ }
      hrestnn
      (by by_cases hc : u.InputTokens > h.tokenStats.InputTokens <;>
            simp [hc] <;> omega)
      (by simp; omega)
      (by by_cases hc : u.InputTokens > h.tokenStats.InputTokens <;>
            simp [hc] <;> omega)
    exact this

/-- Claim C4: after an accumulation whose total meets or exceeds the
ceiling, `OnTokenUsage` synthesizes exactly one BAILOUT signal with detail
"token limit exceeded", marks the invocation for termination, and invokes
the supplied cancellation callback exactly once; an accumulation staying
strictly below the ceiling changes none of these, and a whole run of
non-negative snapshots whose input and output sums stay strictly below the
ceiling never terminates and never invokes the callback. -/
theorem c4_token_ceiling :
    (∀ (h : ConsoleHandler) (u : TokenStats), h.hasOnTerminate = true →
      ((OnTokenUsage h u).tokenStats.TotalTokens ≥ h.tokenThreshold →
        (OnTokenUsage h u).signals =
          h.signals ++ [⟨SignalBailout, "token limit exceeded", ""⟩] ∧
        (OnTokenUsage h u).shouldStop = true ∧
        (OnTokenUsage h u).terminateCalls = h.terminateCalls + 1) ∧
      ((OnTokenUsage h u).tokenStats.TotalTokens < h.tokenThreshold →
        (OnTokenUsage h u).signals = h.signals ∧
        (OnTokenUsage h u).shouldStop = h.shouldStop ∧
        (OnTokenUsage h u).terminateCalls = h.terminateCalls)) ∧
    (∀ (c : Int) (snaps : List TokenStats),
      (∀ u ∈ snaps, 0 ≤ u.InputTokens ∧ 0 ≤ u.OutputTokens) →
      sumInputTokens snaps + sumOutputTokens snaps < c →
      (snaps.foldl OnTokenUsage (NewConsoleHandlerWithTerminate c)).shouldStop = false ∧
      (snaps.foldl OnTokenUsage (NewConsoleHandlerWithTerminate c)).terminateCalls = 0 ∧
      (snaps.foldl OnTokenUsage (NewConsoleHandlerWithTerminate c)).signals = []) := by
  constructor
  · intro h u hterm
    by_cases hc : (if u.InputTokens > h.tokenStats.InputTokens then u.InputTokens
                   else h.tokenStats.InputTokens) +
                  (h.tokenStats.OutputTokens + u.OutputTokens) ≥ h.tokenThreshold
    · constructor
      · intro _
        rw [OnTokenUsage]
        simp only []
        rw [if_pos hc]
        simp [hterm]
      · intro hlt
        rw [OnTokenUsage] at hlt
        simp only [] at hlt
        rw [if_pos hc] at hlt
        simp at hlt
        omega
    · constructor
      · intro hge
        rw [OnTokenUsage] at hge
        simp only [] at hge
        rw [if_neg hc] at hge
        simp at hge
        omega
      · intro _
        rw [OnTokenUsage]
        simp only []
        rw [if_neg hc]
        exact ⟨rfl, rfl, rfl⟩
  · exact fun c snaps hnn hsum =>
      tokenFoldBelow snaps (NewConsoleHandlerWithTerminate c) hnn
        (by simp [NewConsoleHandlerWithTerminate])
        (by simp [NewConsoleHandlerWithTerminate])
        (by simp [NewConsoleHandlerWithTerminate]; omega)

/-- Claim C4 witness: the ceiling theorem at the spec's concrete inputs:
snapshot (800,300) against ceiling 1000 reports total 1100, fires the
BAILOUT, stops, and calls the callback exactly once; one snapshot
totalling 50000+1000 against ceiling 100000 does not terminate. -/
theorem c4_token_ceiling_witness :
    (OnTokenUsage (NewConsoleHandlerWithTerminate 1000) ⟨800, 300, 0⟩).tokenStats.TotalTokens = 1100 ∧
    (OnTokenUsage (NewConsoleHandlerWithTerminate 1000) ⟨800, 300, 0⟩).signals =
      [⟨SignalBailout, "token limit exceeded", ""⟩] ∧
    (OnTokenUsage (NewConsoleHandlerWithTerminate 1000) ⟨800, 300, 0⟩).shouldStop = true ∧
    (OnTokenUsage (NewConsoleHandlerWithTerminate 1000) ⟨800, 300, 0⟩).terminateCalls = 1 ∧
    ([⟨50000, 1000, 0⟩].foldl OnTokenUsage (NewConsoleHandlerWithTerminate 100000)).shouldStop = false ∧
    ([⟨50000, 1000, 0⟩].foldl OnTokenUsage (NewConsoleHandlerWithTerminate 100000)).terminateCalls = 0 := by
  have h1 := ((c4_token_ceiling.1 (NewConsoleHandlerWithTerminate 1000) ⟨800, 300, 0⟩ rfl).1 (by decide))
  have h2 := c4_token_ceiling.2 100000 [⟨50000, 1000, 0⟩]
    (by intro u hu; fin_cases hu <;> exact ⟨by decide, by decide⟩)
    (by decide)
  exact ⟨by decide, h1.1, h1.2.1, h1.2.2, h2.1, h2.2.1⟩

/-- Claim C2: the claim states that `Load` tolerates a bare top-level JSON
array (auto-wrap, auto-save, warning) and an empty file (empty record
set).  The `Load` in `src/internal/prd/prd.go` has no such recovery: both
inputs are hard errors there, contradicting the repository's own
CHANGELOG 0.4.13 entry; the spec-modelled resilient load (`loadResilient`)
recovers exactly as the claim says, yields a one-record store for the
spec's bare-array example, and re-marshalling that store produces a
document with a top-level "prds" key. -/
theorem c2_load_divergence :
    (Load (FileContent.json (Json.arr [Json.obj
        [("id", Json.str "a"), ("description", Json.str "demo"),
         ("acceptanceCriteria", Json.arr [Json.str "works"]),
         ("priority", Json.num 1), ("passes", Json.bool false),
         ("notes", Json.str "")]]))).isOk = false ∧
    (Load FileContent.emptyFile).isOk = false ∧
    loadResilient (FileContent.json (Json.arr [Json.obj
        [("id", Json.str "a"), ("description", Json.str "demo"),
         ("acceptanceCriteria", Json.arr [Json.str "works"]),
         ("priority", Json.num 1), ("passes", Json.bool false),
         ("notes", Json.str "")]]))
      = .ok ⟨⟨[⟨"a", "demo", ["works"], 1, .vbool false, "", ""⟩]⟩, true, true⟩ ∧
    loadResilient FileContent.emptyFile = .ok ⟨⟨[]⟩, false, false⟩ ∧
    toJsonPRDFileData ⟨[⟨"a", "demo", ["works"], 1, .vbool false, "", ""⟩]⟩
      = Json.obj [("prds", Json.arr [Json.obj
          [("id", Json.str "a"), ("description", Json.str "demo"),
           ("acceptanceCriteria", Json.arr [Json.str "works"]),
           ("priority", Json.num 1), ("passes", Json.bool false),
           ("notes", Json.str "")]])] := by
  refine ⟨rfl, rfl, rfl, rfl, rfl⟩

theorem OnSignal_terminal (h : ConsoleHandler) (sig : Signal)
    (hs : isTerminalSignal sig = true) : (OnSignal h sig).shouldStop = true := by
  rw [OnSignal]
  simp [hs]

/-- Claim C8: once the handler indicates termination (which `OnSignal` sets
exactly for the terminal signal kinds, and the tracker sets on budget
exhaustion), `ParseStream` reads nothing further: its outcome on any
extended stream equals its outcome on the prefix, the driver-level
cancellation callback is invoked exactly once, and it consumed at most the
prefix; moreover `OnSignal` marks termination precisely for signals with a
terminal kind. -/
theorem c8_terminal_stops_stream (h : ConsoleHandler) (ls1 ls2 : List StreamLine)
    (hstart : h.shouldStop = false)
    (hterm : (ParseStream h ls1).handler.shouldStop = true) :
    ParseStream h (ls1 ++ ls2) = ParseStream h ls1 ∧
    (ParseStream h ls1).terminateCalls = 1 ∧
    (ParseStream h ls1).consumed ≤ ls1.length ∧
    (∀ sig, isTerminalSignal sig = true → (OnSignal h sig).shouldStop = true) := by
  induction ls1 generalizing h with
  | nil =>
    rw [ParseStream] at hterm
    rw [hstart] at hterm
    cases hterm
  | cons line rest ih =>
    cases line with
    | empty =>
      rw [List.cons_append]
      rw [show ParseStream h (StreamLine.empty :: rest) =
            ⟨(ParseStream h rest).handler, (ParseStream h rest).terminateCalls,
             (ParseStream h rest).consumed + 1⟩ from rfl] at hterm ⊢
      rw [show ParseStream h (StreamLine.empty :: (rest ++ ls2)) =
            ⟨(ParseStream h (rest ++ ls2)).handler,
             (ParseStream h (rest ++ ls2)).terminateCalls,
             (ParseStream h (rest ++ ls2)).consumed + 1⟩ from rfl]
      obtain ⟨heq, hcalls, hcons, _⟩ := ih h hstart hterm
      rw [heq]
      refine ⟨rfl, hcalls, by simpa using Nat.add_le_add_right hcons 1,
        fun sig hs => OnSignal_terminal _ sig hs⟩
    | malformed =>
      rw [List.cons_append]
      rw [show ParseStream h (StreamLine.malformed :: rest) =
            ⟨(ParseStream h rest).handler, (ParseStream h rest).terminateCalls,
             (ParseStream h rest).consumed + 1⟩ from rfl] at hterm ⊢
      rw [show ParseStream h (StreamLine.malformed :: (rest ++ ls2)) =
            ⟨(ParseStream h (rest ++ ls2)).handler,
             (ParseStream h (rest ++ ls2)).terminateCalls,
             (ParseStream h (rest ++ ls2)).consumed + 1⟩ from rfl]
      obtain ⟨heq, hcalls, hcons, _⟩ := ih h hstart hterm
      rw [heq]
      refine ⟨rfl, hcalls, by simpa using Nat.add_le_add_right hcons 1,
        fun sig hs => OnSignal_terminal _ sig hs⟩
    | event e =>
      by_cases hs : (processEvent h e).shouldStop
      · rw [List.cons_append]
        have hred : ∀ tail, ParseStream h (StreamLine.event e :: tail) =
            ⟨processEvent h e, 1, 1⟩ := by
          intro tail
          rw [ParseStream]
          simp [hs]
        rw [hred, hred]
        refine ⟨rfl, rfl, by simp, fun sig hs => OnSignal_terminal _ sig hs⟩
      · rw [List.cons_append]
        have hred : ∀ tail, ParseStream h (StreamLine.event e :: tail) =
            ⟨(ParseStream (processEvent h e) tail).handler,
             (ParseStream (processEvent h e) tail).terminateCalls,
             (ParseStream (processEvent h e) tail).consumed + 1⟩ := by
          intro tail
          rw [ParseStream]
          simp [hs]
        rw [hred] at hterm
        rw [hred, hred]
        obtain ⟨heq, hcalls, hcons, _⟩ :=
          ih (processEvent h e) (Bool.not_eq_true _ ▸ hs) hterm
        rw [heq]
        refine ⟨rfl, hcalls, by simpa using Nat.add_le_add_right hcons 1,
        fun sig hs => OnSignal_terminal _ sig hs⟩

/-- Claim C8 witness: a result event carrying `###ANALYSIS_COMPLETE###`
terminates the stream; the driver behaves identically whether or not a
further event follows, and the callback fires once. -/
theorem c8_terminal_stops_stream_witness :
    ParseStream (NewConsoleHandlerWithTerminate 100000)
        ([StreamLine.event ⟨"result", none, "###ANALYSIS_COMPLETE###".data, none, none⟩] ++
         [StreamLine.event ⟨"result", none, "extra output".data, none, none⟩])
      = ParseStream (NewConsoleHandlerWithTerminate 100000)
          [StreamLine.event ⟨"result", none, "###ANALYSIS_COMPLETE###".data, none, none⟩] ∧
    (ParseStream (NewConsoleHandlerWithTerminate 100000)
        [StreamLine.event ⟨"result", none, "###ANALYSIS_COMPLETE###".data, none, none⟩]).terminateCalls = 1 := by
  have h := c8_terminal_stops_stream (NewConsoleHandlerWithTerminate 100000)
    [StreamLine.event ⟨"result", none, "###ANALYSIS_COMPLETE###".data, none, none⟩]
    [StreamLine.event ⟨"result", none, "extra output".data, none, none⟩]
    rfl (by decide)
  exact ⟨h.1, h.2.1⟩

theorem updateByID_preserves {l : List PRD} {oid i : String} {f : PRD → PRD}
    (hne : oid ≠ i) (hid : ∀ p, (f p).ID = p.ID) :
    FindByID (updateByID l oid f) i = FindByID l i := by
  induction l with
  | nil => rfl
  | cons r rest ih =>
    rw [updateByID]
    by_cases hr : r.ID = oid
    · rw [if_pos hr]
      rw [FindByID, FindByID]
      rw [hid r, hr]
      rw [if_neg hne, if_neg (hr ▸ hne)]
    · rw [if_neg hr]
      rw [FindByID, FindByID]
      by_cases hq : r.ID = i
      · rw [if_pos hq, if_pos hq]
      · rw [if_neg hq, if_neg hq, ih]

theorem updateByID_found {l : List PRD} {i : String} {f : PRD → PRD} {p : PRD}
    (hid : ∀ q, (f q).ID = q.ID) (h : FindByID l i = some p) :
    FindByID (updateByID l i f) i = some (f p) := by
  induction l with
  | nil => cases h
  | cons r rest ih =>
    rw [FindByID] at h
    rw [updateByID]
    by_cases hr : r.ID = i
    · rw [if_pos hr] at h
      have hp : p = r := (Option.some.inj h).symm
      subst hp
      rw [if_pos hr, FindByID, if_pos ((hid p).trans hr)]
    · rw [if_neg hr] at h
      rw [if_neg hr, FindByID, if_neg hr]
      exact ih h

theorem applyReviewerSignal_preserves {s : PRDFileData} {g : Signal} {i : String}
    (h : (g.SigType = SignalVerified ∨ g.SigType = SignalRejected) →
          g.PRDID ≠ i) :
    FindByID (applyReviewerSignal s g).PRDs i = FindByID s.PRDs i := by
  rw [applyReviewerSignal]
  by_cases hv : g.SigType = SignalVerified
  · rw [if_pos hv]
    exact updateByID_preserves (h (Or.inl hv))
      (by intro p; by_cases hp : p.Passes.IsPending <;> simp [hp])
  · rw [if_neg hv]
    by_cases hr : g.SigType = SignalRejected
    · rw [if_pos hr]
      exact updateByID_preserves (h (Or.inr hr))
        (by intro p; by_cases hp : p.Passes.IsPending <;> simp [hp])
    · rw [if_neg hr]

theorem applyReviewerSignals_preserves {L : List Signal} :
    ∀ {s : PRDFileData} {i : String},
      (∀ g ∈ L, (g.SigType = SignalVerified ∨ g.SigType = SignalRejected) →
        g.PRDID ≠ i) →
      FindByID (applyReviewerSignals s L).PRDs i = FindByID s.PRDs i := by
  induction L with
  | nil => intro s i _; rfl
  | cons g rest ih =>
    intro s i h
    rw [applyReviewerSignals, List.foldl_cons]
    have h1 := applyReviewerSignal_preserves (s := s) (g := g) (i := i)
      (h g (List.mem_cons_self g rest))
    have h2 := ih (s := applyReviewerSignal s g) (i := i)
      (fun q hq => h q (List.mem_cons_of_mem g hq))
    exact h2.trans h1

theorem applyReviewerSignal_verified {s : PRDFileData} {id d : String} {p : PRD}
    (hfind : FindByID s.PRDs id = some p) (hpend : p.Passes = .vstr "pending") :
    FindByID (applyReviewerSignal s ⟨SignalVerified, d, id⟩).PRDs id =
      some { p with Passes := .vbool true, ActivePlan := "" } := by
  have hstep : applyReviewerSignal s ⟨SignalVerified, d, id⟩ =
      ⟨updateByID s.PRDs id (fun q => if q.Passes.IsPending then
        { q with Passes := .vbool true, ActivePlan := "" } else q)⟩ := by
    simp [applyReviewerSignal]
  rw [hstep]
  have := updateByID_found (l := s.PRDs) (i := id)
    (f := fun q => if q.Passes.IsPending then
            { q with Passes := .vbool true, ActivePlan := "" } else q)
    (by intro q; by_cases hq : q.Passes.IsPending <;> simp [hq]) hfind
  rw [this]
  have hp : p.Passes.IsPending = true := by rw [hpend]; decide
  simp [hp]

theorem applyReviewerSignal_rejected {s : PRDFileData} {id d : String} {p : PRD}
    (hfind : FindByID s.PRDs id = some p) (hpend : p.Passes = .vstr "pending") :
    FindByID (applyReviewerSignal s ⟨SignalRejected, d, id⟩).PRDs id =
      some { p with Passes := .vbool false, Notes := appendReason p.Notes d } := by
  have hstep : applyReviewerSignal s ⟨SignalRejected, d, id⟩ =
      ⟨updateByID s.PRDs id (fun q => if q.Passes.IsPending then
        { q with Passes := .vbool false, Notes := appendReason q.Notes d } else q)⟩ := by
    simp [applyReviewerSignal, SignalRejected, SignalVerified]
  rw [hstep]
  have := updateByID_found (l := s.PRDs) (i := id)
    (f := fun q => if q.Passes.IsPending then
            { q with Passes := .vbool false, Notes := appendReason q.Notes d } else q)
    (by intro q; by_cases hq : q.Passes.IsPending <;> simp [hq]) hfind
  rw [this]
  have hp : p.Passes.IsPending = true := by rw [hpend]; decide
  simp [hp]

theorem appendReason_contains (notes reason : String) :
    ∃ pre post, appendReason notes reason = pre ++ reason ++ post := by
  rw [appendReason]
  by_cases hn : notes = ""
  · exact ⟨"", "", by simp [hn]⟩
  · exact ⟨notes ++ "\n", "", by simp [hn]⟩

/-- Claim C3: in one reviewer invocation every returned signal is
processed; each `VERIFIED:id` whose record is Pending moves it to
Complete and clears its plan reference, and each `REJECTED:id:reason`
whose record is Pending moves it to Open with the reason appended to its
notes — regardless of where in the invocation's signal list the signal
occurs, provided the VERIFIED/REJECTED signals of the invocation target
distinct records. -/
theorem c3_reviewer_transitions (s : PRDFileData) (sigs : List Signal)
    (sig : Signal) (hmem : sig ∈ sigs)
    (hvr : sig.SigType = SignalVerified ∨ sig.SigType = SignalRejected)
    (hdis : ((sigs.filter (fun g =>
        g.SigType == SignalVerified || g.SigType == SignalRejected)).map
          (fun g => g.PRDID)).Nodup)
    (p : PRD) (hfind : FindByID s.PRDs sig.PRDID = some p)
    (hpend : p.Passes = .vstr "pending") :
    ∃ q, FindByID (applyReviewerSignals s sigs).PRDs sig.PRDID = some q ∧
      (sig.SigType = SignalVerified →
        q.Passes = .vbool true ∧ q.ActivePlan = "") ∧
      (sig.SigType = SignalRejected →
        q.Passes = .vbool false ∧
        ∃ pre post, q.Notes = pre ++ sig.Details ++ post) := by
  obtain ⟨pre, post, rfl⟩ := List.append_of_mem hmem
  have hpredsig : (fun g =>
      g.SigType == SignalVerified || g.SigType == SignalRejected) sig = true := by
    rcases hvr with h | h <;> simp [h]
  rw [List.filter_append] at hdis
  have hfc : List.filter (fun g =>
      g.SigType == SignalVerified || g.SigType == SignalRejected) (sig :: post) =
      sig :: List.filter (fun g =>
        g.SigType == SignalVerified || g.SigType == SignalRejected) post :=
    List.filter_cons_of_pos hpredsig
  rw [hfc, List.map_append, List.map_cons] at hdis
  have hnotin := (List.nodup_middle.mp hdis).not_mem
  rw [List.mem_append] at hnotin
  push_neg at hnotin
  have hpre : ∀ g ∈ pre,
      (g.SigType = SignalVerified ∨ g.SigType = SignalRejected) →
      g.PRDID ≠ sig.PRDID := by
    intro g hg hgvr heq
    apply hnotin.1
    rw [← heq]
    apply List.mem_map_of_mem
    apply List.mem_filter_of_mem hg
    rcases hgvr with h | h <;> simp [h]
  have hpost : ∀ g ∈ post,
      (g.SigType = SignalVerified ∨ g.SigType = SignalRejected) →
      g.PRDID ≠ sig.PRDID := by
    intro g hg hgvr heq
    apply hnotin.2
    rw [← heq]
    apply List.mem_map_of_mem
    apply List.mem_filter_of_mem hg
    rcases hgvr with h | h <;> simp [h]
  have hfind1 :
      FindByID (applyReviewerSignals s pre).PRDs sig.PRDID = some p := by
    rw [applyReviewerSignals_preserves hpre]
    exact hfind
  rw [applyReviewerSignals, List.foldl_append, List.foldl_cons]
  obtain ⟨st, sdet, spid⟩ := sig
  rcases hvr with hv | hr
  · cases hv
    refine ⟨{ p with Passes := PassesStatus.vbool true, ActivePlan := "" }, ?_, ?_, ?_⟩
    · have hstep := applyReviewerSignal_verified (d := sdet) hfind1 hpend
      have hrest := applyReviewerSignals_preserves
        (s := applyReviewerSignal (applyReviewerSignals s pre)
                ⟨SignalVerified, sdet, spid⟩)
        (i := spid) hpost
      exact hrest.trans hstep
    · intro _
      exact ⟨rfl, rfl⟩
    · intro hR
      simp [SignalVerified, SignalRejected] at hR
  · cases hr
    refine ⟨{ p with Passes := PassesStatus.vbool false, Notes := appendReason p.Notes sdet }, ?_, ?_, ?_⟩
    · have hstep := applyReviewerSignal_rejected (d := sdet) hfind1 hpend
      have hrest := applyReviewerSignals_preserves
        (s := applyReviewerSignal (applyReviewerSignals s pre)
                ⟨SignalRejected, sdet, spid⟩)
        (i := spid) hpost
      exact hrest.trans hstep
    · intro hV
      simp [SignalVerified, SignalRejected] at hV
    · intro _
      exact ⟨rfl, appendReason_contains p.Notes sdet⟩

/-- Claim C3 witness: a store with Pending records "a" (with a plan
reference) and "b"; one invocation returning VERIFIED:a and
REJECTED:b:"needs tests" completes "a" (plan cleared) and reopens "b"
with the reason in its notes. -/
theorem c3_reviewer_transitions_witness :
    (∃ q, FindByID (applyReviewerSignals
        ⟨[⟨"a", "", [], 1, .vstr "pending", "", "plans/a-plan.md"⟩,
          ⟨"b", "", [], 2, .vstr "pending", "old", "plans/b-plan.md"⟩]⟩
        [⟨SignalVerified, "", "a"⟩, ⟨SignalRejected, "needs tests", "b"⟩]).PRDs
        "a" = some q ∧ q.Passes = .vbool true ∧ q.ActivePlan = "") ∧
    (∃ q, FindByID (applyReviewerSignals
        ⟨[⟨"a", "", [], 1, .vstr "pending", "", "plans/a-plan.md"⟩,
          ⟨"b", "", [], 2, .vstr "pending", "old", "plans/b-plan.md"⟩]⟩
        [⟨SignalVerified, "", "a"⟩, ⟨SignalRejected, "needs tests", "b"⟩]).PRDs
        "b" = some q ∧ q.Passes = .vbool false ∧
        ∃ pre post, q.Notes = pre ++ "needs tests" ++ post) := by
  constructor
  · obtain ⟨q, hq, hV, _⟩ := c3_reviewer_transitions
      ⟨[⟨"a", "", [], 1, .vstr "pending", "", "plans/a-plan.md"⟩,
        ⟨"b", "", [], 2, .vstr "pending", "old", "plans/b-plan.md"⟩]⟩
      [⟨SignalVerified, "", "a"⟩, ⟨SignalRejected, "needs tests", "b"⟩]
      ⟨SignalVerified, "", "a"⟩ (by simp) (Or.inl rfl) (by decide)
      ⟨"a", "", [], 1, .vstr "pending", "", "plans/a-plan.md"⟩ rfl rfl
    exact ⟨q, hq, hV rfl⟩
  · obtain ⟨q, hq, _, hR⟩ := c3_reviewer_transitions
      ⟨[⟨"a", "", [], 1, .vstr "pending", "", "plans/a-plan.md"⟩,
        ⟨"b", "", [], 2, .vstr "pending", "old", "plans/b-plan.md"⟩]⟩
      [⟨SignalVerified, "", "a"⟩, ⟨SignalRejected, "needs tests", "b"⟩]
      ⟨SignalRejected, "needs tests", "b"⟩ (by simp) (Or.inr rfl) (by decide)
      ⟨"b", "", [], 2, .vstr "pending", "old", "plans/b-plan.md"⟩ rfl rfl
    obtain ⟨h1, h2⟩ := hR rfl
    exact ⟨q, hq, h1, h2⟩

theorem orderedInsertGo_length (a : PRD) (l : List PRD) :
    (orderedInsertGo a l).length = l.length + 1 := by
  induction l with
  | nil => rfl
  | cons b rest ih =>
    rw [orderedInsertGo]
    by_cases hc : a.Priority ≤ b.Priority
    · rw [if_pos hc]; simp
    · rw [if_neg hc]; simp [ih]

theorem orderedInsertGo_mem {x a : PRD} {l : List PRD} :
    x ∈ orderedInsertGo a l ↔ x = a ∨ x ∈ l := by
  induction l with
  | nil => simp [orderedInsertGo]
  | cons b rest ih =>
    rw [orderedInsertGo]
    by_cases hc : a.Priority ≤ b.Priority
    · rw [if_pos hc]
      simp
    · rw [if_neg hc]
      simp [ih]
      tauto

theorem sortByPriority_mem {x : PRD} {l : List PRD} :
    x ∈ sortByPriority l ↔ x ∈ l := by
  induction l with
  | nil => simp [sortByPriority]
  | cons a rest ih =>
    rw [sortByPriority]
    rw [orderedInsertGo_mem]
    simp [ih]

theorem sortByPriority_head (l : List PRD) (hne : l ≠ []) :
    ∃ r i, (sortByPriority l).head? = some r ∧ l.get? i = some r ∧
      (∀ q ∈ l, r.Priority ≤ q.Priority) ∧
      (∀ j, j < i → ∀ q, l.get? j = some q → r.Priority < q.Priority) := by
  induction l with
  | nil => exact absurd rfl hne
  | cons a rest ih =>
    cases rest with
    | nil =>
      refine ⟨a, 0, rfl, rfl, ?_, ?_⟩
      · intro q hq
        rw [List.mem_singleton] at hq
        exact hq ▸ le_refl _
      · intro j hj
        omega
    | cons b rest2 =>
      obtain ⟨r1, i1, hhead1, hget1, hmin1, hfirst1⟩ := ih (by simp)
      have hsne : sortByPriority (b :: rest2) ≠ [] := by
        intro hemp
        have := congrArg List.length hemp
        rw [show (sortByPriority (b :: rest2)).length = (b :: rest2).length from by
          induction (b :: rest2) with
          | nil => rfl
          | cons c tl ihh => rw [sortByPriority, orderedInsertGo_length, ihh]; rfl] at this
        simp at this
      obtain ⟨s1, stail, hs⟩ := List.exists_cons_of_ne_nil hsne
      rw [hs] at hhead1
      have hs1 : s1 = r1 := by
        rw [List.head?] at hhead1
        exact Option.some.inj hhead1
      rw [hs1] at hs
      rw [sortByPriority, hs]
      rw [orderedInsertGo]
      by_cases hc : a.Priority ≤ r1.Priority
      · rw [if_pos hc]
        refine ⟨a, 0, rfl, rfl, ?_, ?_⟩
        · intro q hq
          rcases List.mem_cons.mp hq with h | h
          · exact h ▸ le_refl _
          · exact le_trans hc (hmin1 q h)
        · intro j hj
          omega
      · rw [if_neg hc]
        refine ⟨r1, i1 + 1, rfl, by simpa using hget1, ?_, ?_⟩
        · intro q hq
          rcases List.mem_cons.mp hq with h | h
          · subst h
            omega
          · exact hmin1 q h
        · intro j hj q hq
          cases j with
          | zero =>
            rw [List.get?] at hq
            cases hq
            omega
          | succ j2 =>
            rw [List.get?] at hq
            exact hfirst1 j2 (by omega) q hq

theorem FindByID_self {l : List PRD} {x : PRD} (hmem : x ∈ l)
    (hnd : (l.map (fun r => r.ID)).Nodup) : FindByID l x.ID = some x := by
  induction l with
  | nil => cases hmem
  | cons r rest ih =>
    rw [FindByID]
    rcases List.mem_cons.mp hmem with h | h
    · subst h
      rw [if_pos rfl]
    · by_cases hr : r.ID = x.ID
      · exfalso
        rw [List.map_cons] at hnd
        have := hnd.not_mem
        apply this
        rw [hr]
        exact List.mem_map_of_mem (fun q => q.ID) h
      · rw [if_neg hr]
        exact ih h (by rw [List.map_cons] at hnd; exact hnd.of_cons)

/-- Claim C9 (amended): for a store with unique record ids, `SelectNext`
returns nothing when no record is Open; otherwise it returns an Open
record whose priority is minimal among the Open records, and — when at
most 12 records are Open, the regime in which Go `sort.Slice` runs its
stable insertion sort — the returned record is the first in store order
among those sharing the minimal priority.  For more than 12 Open records
`sort.Slice` leaves the order among equal priorities unspecified, and for
duplicate ids the claim fails outright (see the counterexample). -/
theorem c9_select_next_bounded (p : PRDFileData)
    (hids : (p.PRDs.map (fun r => r.ID)).Nodup) :
    (GetOpenPRDs p = [] → SelectNext p = none) ∧
    (GetOpenPRDs p ≠ [] → ∃ r, SelectNext p = some r) ∧
    (∀ r, SelectNext p = some r →
      r ∈ GetOpenPRDs p ∧
      (∀ q ∈ GetOpenPRDs p, r.Priority ≤ q.Priority) ∧
      ((GetOpenPRDs p).length ≤ 12 →
        ∃ i, (GetOpenPRDs p).get? i = some r ∧
          ∀ j, j < i → ∀ q, (GetOpenPRDs p).get? j = some q →
            r.Priority < q.Priority)) := by
  by_cases hemp : GetOpenPRDs p = []
  · refine ⟨fun _ => ?_, fun hne => absurd hemp hne, fun r hr => ?_⟩
    · rw [SelectNext]
      simp [hemp]
    · rw [SelectNext] at hr
      simp [hemp] at hr
  · obtain ⟨r0, i0, hhead0, hget0, hmin0, hfirst0⟩ :=
      sortByPriority_head (GetOpenPRDs p) hemp
    obtain ⟨s0, stail, hs⟩ := List.exists_cons_of_ne_nil
      (show sortByPriority (GetOpenPRDs p) ≠ [] by
        intro hx
        rw [hx] at hhead0
        cases hhead0)
    rw [hs] at hhead0
    have hs0 : s0 = r0 := by
      rw [List.head?] at hhead0
      exact Option.some.inj hhead0
    rw [hs0] at hs
    have hr0mem : r0 ∈ GetOpenPRDs p := List.get?_mem hget0
    have hr0store : r0 ∈ p.PRDs := List.mem_of_mem_filter hr0mem
    have hsel : SelectNext p = some r0 := by
      have hie : (GetOpenPRDs p).isEmpty = false := by
        cases hcase : GetOpenPRDs p with
        | nil => exact absurd hcase hemp
        | cons _ _ => rfl
      show (if (GetOpenPRDs p).isEmpty = true then none
            else match sortByPriority (GetOpenPRDs p) with
                 | [] => none
                 | best :: _ => FindByID p.PRDs best.ID) = some r0
      rw [hie, hs]
      simp only [Bool.false_eq_true, if_false]
      exact FindByID_self hr0store hids
    refine ⟨fun h => absurd h hemp, fun _ => ⟨r0, hsel⟩, fun r hr => ?_⟩
    rw [hsel] at hr
    have hrr : r = r0 := (Option.some.inj hr).symm
    subst hrr
    exact ⟨hr0mem, hmin0, fun _ => ⟨i0, hget0, hfirst0⟩⟩

/-- Claim C9 counterexample: the claim as stated fails on a store with a
duplicate id.  The store holds a Complete record with id "a" followed by
an Open record with the same id: `GetOpenPRDs` is nonempty (so the claim
asserts an Open record is returned), the sort is over a single element
(so no sorting ambiguity is involved), yet `SelectNext` returns the
Complete record, because the Go code resolves `open[0].ID` to the FIRST
record in the store bearing that id. -/
theorem c9_select_next_counterexample :
    SelectNext ⟨[⟨"a", "", [], 5, .vbool true, "", ""⟩,
                 ⟨"a", "", [], 1, .vbool false, "", ""⟩]⟩
      = some ⟨"a", "", [], 5, .vbool true, "", ""⟩ ∧
    GetOpenPRDs ⟨[⟨"a", "", [], 5, .vbool true, "", ""⟩,
                  ⟨"a", "", [], 1, .vbool false, "", ""⟩]⟩ ≠ [] ∧
    (PassesStatus.vbool true).IsFalse = false := by
  refine ⟨by decide, by decide, by decide⟩

/-- Claim C9 witness: the amended theorem at a store with unique ids, one
Complete record and three Open records with priorities 2, 1, 1: the
selected record is the Open record of minimal priority that appears first
in store order, namely the one with id "y". -/
theorem c9_select_next_bounded_witness :
    SelectNext ⟨[⟨"w", "", [], 0, .vbool true, "", ""⟩,
                 ⟨"x", "", [], 2, .vbool false, "", ""⟩,
                 ⟨"y", "", [], 1, .vbool false, "", ""⟩,
                 ⟨"z", "", [], 1, .vbool false, "", ""⟩]⟩
      = some ⟨"y", "", [], 1, .vbool false, "", ""⟩ ∧
    (∀ q ∈ GetOpenPRDs ⟨[⟨"w", "", [], 0, .vbool true, "", ""⟩,
                 ⟨"x", "", [], 2, .vbool false, "", ""⟩,
                 ⟨"y", "", [], 1, .vbool false, "", ""⟩,
                 ⟨"z", "", [], 1, .vbool false, "", ""⟩]⟩,
      (1 : Int) ≤ q.Priority) := by
  have hsel : SelectNext ⟨[⟨"w", "", [], 0, .vbool true, "", ""⟩,
                 ⟨"x", "", [], 2, .vbool false, "", ""⟩,
                 ⟨"y", "", [], 1, .vbool false, "", ""⟩,
                 ⟨"z", "", [], 1, .vbool false, "", ""⟩]⟩
      = some ⟨"y", "", [], 1, .vbool false, "", ""⟩ := by decide
  have hmin := ((c9_select_next_bounded ⟨[⟨"w", "", [], 0, .vbool true, "", ""⟩,
                 ⟨"x", "", [], 2, .vbool false, "", ""⟩,
                 ⟨"y", "", [], 1, .vbool false, "", ""⟩,
                 ⟨"z", "", [], 1, .vbool false, "", ""⟩]⟩
      (by decide)).2.2 ⟨"y", "", [], 1, .vbool false, "", ""⟩ hsel).2.1
  exact ⟨hsel, hmin⟩

theorem key_nomatch {kt : List Char} (c : Char) (rest : List Char)
    (hc : c ≠ '#') :
    (('#' :: kt).isPrefixOf (c :: rest)) = false := by
  simp only [List.isPrefixOf]
  rw [beq_eq_false_iff_ne.mpr (fun h => hc h.symm)]
  rw [Bool.false_and]

theorem matchOne_none_head {key : List Char} (hk : key.head? = some '#')
    (c : Char) (rest : List Char) (hc : c ≠ '#') :
    matchOne key (c :: rest) = none := by
  obtain ⟨k0, kt, rfl⟩ : ∃ k0 kt, key = k0 :: kt := by
    cases key with
    | nil => cases hk
    | cons a b => exact ⟨a, b, rfl⟩
  simp only [List.head?_cons, Option.some.injEq] at hk
  subst hk
  rw [matchOne]
  rw [if_neg]
  rw [key_nomatch c rest hc]
  simp

theorem matchTwo_none_head {key : List Char} (hk : key.head? = some '#')
    (c : Char) (rest : List Char) (hc : c ≠ '#') :
    matchTwo key (c :: rest) = none := by
  obtain ⟨k0, kt, rfl⟩ : ∃ k0 kt, key = k0 :: kt := by
    cases key with
    | nil => cases hk
    | cons a b => exact ⟨a, b, rfl⟩
  simp only [List.head?_cons, Option.some.injEq] at hk
  subst hk
  rw [matchTwo]
  rw [if_neg]
  rw [key_nomatch c rest hc]
  simp

theorem findStop_clean (u rest : List Char)
    (hu : ∀ ch ∈ u, ch ≠ '#' ∧ ch ≠ '\n') :
    findStop (u ++ '#' :: '#' :: '#' :: rest) = some (u, rest) := by
  induction u with
  | nil =>
    rw [List.nil_append]
    simp [findStop, List.isPrefixOf]
  | cons c u2 ih =>
    have hc1 : c ≠ '#' := (hu c (List.mem_cons_self c u2)).1
    have hc2 : c ≠ '\n' := (hu c (List.mem_cons_self c u2)).2
    rw [List.cons_append]
    simp only [findStop]
    rw [if_neg (by simp [hc1]), if_neg hc2]
    rw [ih (fun ch h => hu ch (List.mem_cons_of_mem _ h))]
    rfl

theorem lazyCapture_clean (x rest : List Char) (hx1 : x ≠ [])
    (hx : ∀ ch ∈ x, ch ≠ '#' ∧ ch ≠ '\n') :
    lazyCapture (x ++ '#' :: '#' :: '#' :: rest) = some (x, rest) := by
  cases x with
  | nil => exact absurd rfl hx1
  | cons c x2 =>
    have hc2 : c ≠ '\n' := (hx c (List.mem_cons_self c x2)).2
    rw [List.cons_append]
    simp only [lazyCapture]
    rw [if_neg hc2]
    rw [findStop_clean x2 rest (fun ch h => hx ch (List.mem_cons_of_mem _ h))]
    rfl

theorem findColon_clean (u w : List Char)
    (hu : ∀ ch ∈ u, ch ≠ ':' ∧ ch ≠ '\n') :
    findColon (u ++ ':' :: w) = some (u, w) := by
  induction u with
  | nil =>
    rw [List.nil_append]
    simp [findColon]
  | cons c u2 ih =>
    have hc1 : c ≠ ':' := (hu c (List.mem_cons_self c u2)).1
    have hc2 : c ≠ '\n' := (hu c (List.mem_cons_self c u2)).2
    rw [List.cons_append]
    simp only [findColon]
    rw [if_neg hc1, if_neg hc2]
    rw [ih (fun ch h => hu ch (List.mem_cons_of_mem _ h))]
    rfl

theorem colonSplit_clean (g w : List Char) (hg1 : g ≠ [])
    (hg : ∀ ch ∈ g, ch ≠ ':' ∧ ch ≠ '\n') :
    colonSplit (g ++ ':' :: w) = some (g, w) := by
  cases g with
  | nil => exact absurd rfl hg1
  | cons c g2 =>
    have hc2 : c ≠ '\n' := (hg c (List.mem_cons_self c g2)).2
    rw [List.cons_append]
    simp only [colonSplit]
    rw [if_neg hc2]
    rw [findColon_clean g2 w (fun ch h => hg ch (List.mem_cons_of_mem _ h))]
    rfl

theorem rejSearch_clean (g1 g2 rest : List Char)
    (hg11 : g1 ≠ []) (hg1 : ∀ ch ∈ g1, ch ≠ ':' ∧ ch ≠ '\n')
    (hg21 : g2 ≠ []) (hg2 : ∀ ch ∈ g2, ch ≠ '#' ∧ ch ≠ '\n') :
    rejSearch (g1 ++ ':' :: (g2 ++ '#' :: '#' :: '#' :: rest)) =
      some (g1, g2, rest) := by
  simp only [rejSearch,
    colonSplit_clean g1 (g2 ++ '#' :: '#' :: '#' :: rest) hg11 hg1,
    lazyCapture_clean g2 rest hg21 hg2]

theorem matchOne_marker_step (key x rest : List Char) (hx1 : x ≠ [])
    (hx : ∀ ch ∈ x, ch ≠ '#' ∧ ch ≠ '\n') :
    matchOne key (oneArgMarkerOf key x ++ rest) = some (x, rest) := by
  rw [show oneArgMarkerOf key x ++ rest =
        key ++ (x ++ '#' :: '#' :: '#' :: rest) from by
    simp [oneArgMarkerOf, List.append_assoc]]
  rw [matchOne]
  rw [if_pos (List.isPrefixOf_iff_prefix.mpr (List.prefix_append _ _))]
  rw [List.drop_left]
  exact lazyCapture_clean x rest hx1 hx

theorem matchTwo_marker_step (g1 g2 rest : List Char)
    (hg11 : g1 ≠ []) (hg1 : ∀ ch ∈ g1, ch ≠ ':' ∧ ch ≠ '\n')
    (hg21 : g2 ≠ []) (hg2 : ∀ ch ∈ g2, ch ≠ '#' ∧ ch ≠ '\n') :
    matchTwo rejectedKey (rejMarkerOf (g1, g2) ++ rest) =
      some ((g1, g2), rest) := by
  rw [show rejMarkerOf (g1, g2) ++ rest =
        rejectedKey ++ (g1 ++ ':' :: (g2 ++ '#' :: '#' :: '#' :: rest)) from by
    simp [rejMarkerOf, List.append_assoc]]
  rw [matchTwo]
  rw [if_pos (List.isPrefixOf_iff_prefix.mpr (List.prefix_append _ _))]
  rw [List.drop_left]
  rw [rejSearch_clean g1 g2 rest hg11 hg1 hg21 hg2]

theorem scanAll_step_ne {α : Type} {m : List Char → Option (α × List Char)}
    (hm : Shrinking m) {text : List Char} {r : α} {after : List Char}
    (hne : text ≠ []) (hyes : m text = some (r, after)) :
    scanAll m text = r :: scanAll m after := by
  cases text with
  | nil => exact absurd rfl hne
  | cons c rest => exact scanAll_step hm c rest r after hyes

theorem scanAll_skipAll {α : Type} {m : List Char → Option (α × List Char)}
    (hskip : ∀ c rest, c ≠ '#' → m (c :: rest) = none) :
    ∀ (p t : List Char), (∀ ch ∈ p, ch ≠ '#') →
      scanAll m (p ++ t) = scanAll m t := by
  intro p
  induction p with
  | nil => intro t _; rw [List.nil_append]
  | cons c p2 ih =>
    intro t hp
    rw [List.cons_append]
    rw [scanAll_skip c (p2 ++ t)
        (hskip c (p2 ++ t) (hp c (List.mem_cons_self c p2)))]
    exact ih t (fun ch h => hp ch (List.mem_cons_of_mem _ h))

theorem scanAll_marksText {β : Type} {m : List Char → Option (β × List Char)}
    {mark : β → List Char} {P : β → Prop}
    (hm : Shrinking m)
    (hskip : ∀ c rest, c ≠ '#' → m (c :: rest) = none)
    (hstep : ∀ x rest, P x → m (mark x ++ rest) = some (x, rest))
    (hne : ∀ x, mark x ≠ []) :
    ∀ (segs : List (β × List Char)) (p0 : List Char),
      (∀ ch ∈ p0, ch ≠ '#') →
      (∀ z ∈ segs, P z.1 ∧ ∀ ch ∈ z.2, ch ≠ '#') →
      scanAll m (marksText mark p0 segs) = segs.map (fun z => z.1) := by
  intro segs
  induction segs with
  | nil =>
    intro p0 hp _
    simp only [marksText]
    have h := scanAll_skipAll hskip p0 [] hp
    rw [List.append_nil] at h
    rw [h]
    rfl
  | cons z rest ih =>
    intro p0 hp hsegs
    obtain ⟨x, p⟩ := z
    simp only [marksText]
    rw [List.append_assoc]
    rw [scanAll_skipAll hskip p0 (mark x ++ marksText mark p rest) hp]
    rw [scanAll_step_ne hm
        (fun hcon => hne x (List.append_eq_nil.mp hcon).1)
        (hstep x (marksText mark p rest)
          (hsegs (x, p) (List.mem_cons_self _ _)).1)]
    rw [List.map_cons]
    rw [ih p (hsegs (x, p) (List.mem_cons_self _ _)).2
        (fun w hw => hsegs w (List.mem_cons_of_mem _ hw))]

theorem filter_kind_nil {L : List Signal} {K : String}
    (h : ∀ g ∈ L, g.SigType ≠ K) :
    L.filter (fun g => g.SigType == K) = [] := by
  rw [List.filter_eq_nil_iff]
  intro g hg
  simp [h g hg]

theorem checkSignals_filter_verified (t : List Char) :
    (checkSignals t).filter (fun g => g.SigType == SignalVerified) =
      (scanAll (matchOne verifiedKey) t).map
        (fun d => ⟨SignalVerified, "", goTrimSpace d⟩) := by
  rw [checkSignals]
  repeat rw [List.filter_append]
  rw [filter_kind_nil (K := SignalVerified) (L := if containsSub prdCompleteLit t
        then [⟨SignalPRDComplete, "", ""⟩] else [])
      (by intro g hg; by_cases hcond : containsSub prdCompleteLit t <;>
            simp [hcond] at hg <;> simp [hg] <;> decide)]
  rw [filter_kind_nil (K := SignalVerified) (L := match (scanAll (matchOne bailoutKey) t).head? with
      | some d => [⟨SignalBailout, goTrimSpace d, ""⟩]
      | none => [])
      (by intro g hg
          cases hh : (scanAll (matchOne bailoutKey) t).head? <;> rw [hh] at hg <;>
            simp at hg
          subst hg; simp [SignalBailout, SignalVerified])]
  rw [filter_kind_nil (K := SignalVerified) (L := match (scanAll (matchOne blockedKey) t).head? with
      | some d => [⟨SignalBlocked, goTrimSpace d, ""⟩]
      | none => [])
      (by intro g hg
          cases hh : (scanAll (matchOne blockedKey) t).head? <;> rw [hh] at hg <;>
            simp at hg
          subst hg; simp [SignalBlocked, SignalVerified])]
  rw [filter_kind_nil (K := SignalVerified) (L := if containsSub analysisCompleteLit t
        then [⟨SignalAnalysisComplete, "", ""⟩] else [])
      (by intro g hg; by_cases hcond : containsSub analysisCompleteLit t <;>
            simp [hcond] at hg <;> simp [hg] <;> decide)]
  rw [filter_kind_nil (K := SignalVerified) (L := (scanAll (matchTwo rejectedKey) t).map
        (fun g => ⟨SignalRejected, goTrimSpace g.2, goTrimSpace g.1⟩))
      (by intro g hg; rw [List.mem_map] at hg; obtain ⟨d, _, rfl⟩ := hg
          simp [SignalRejected, SignalVerified])]
  rw [filter_kind_nil (K := SignalVerified) (L := (scanAll (matchOne loopRiskKey) t).map
        (fun d => ⟨SignalLoopRisk, "", goTrimSpace d⟩))
      (by intro g hg; rw [List.mem_map] at hg; obtain ⟨d, _, rfl⟩ := hg
          simp [SignalLoopRisk, SignalVerified])]
  rw [filter_kind_nil (K := SignalVerified) (L := (scanAll (matchOne planCompleteKey) t).map
        (fun d => ⟨SignalPlanComplete, "", goTrimSpace d⟩))
      (by intro g hg; rw [List.mem_map] at hg; obtain ⟨d, _, rfl⟩ := hg
          simp [SignalPlanComplete, SignalVerified])]
  rw [filter_kind_nil (K := SignalVerified) (L := (scanAll (matchOne planSkippedKey) t).map
        (fun d => ⟨SignalPlanSkipped, goTrimSpace d, ""⟩))
      (by intro g hg; rw [List.mem_map] at hg; obtain ⟨d, _, rfl⟩ := hg
          simp [SignalPlanSkipped, SignalVerified])]
  rw [filter_kind_nil (K := SignalVerified) (L := (scanAll (matchOne planUpdatedKey) t).map
        (fun d => ⟨SignalPlanUpdated, "", goTrimSpace d⟩))
      (by intro g hg; rw [List.mem_map] at hg; obtain ⟨d, _, rfl⟩ := hg
          simp [SignalPlanUpdated, SignalVerified])]
  rw [List.filter_eq_self.mpr
      (by intro g hg; rw [List.mem_map] at hg; obtain ⟨d, _, rfl⟩ := hg; simp)]
  simp

theorem checkSignals_filter_rejected (t : List Char) :
    (checkSignals t).filter (fun g => g.SigType == SignalRejected) =
      (scanAll (matchTwo rejectedKey) t).map
        (fun g => ⟨SignalRejected, goTrimSpace g.2, goTrimSpace g.1⟩) := by
  rw [checkSignals]
  repeat rw [List.filter_append]
  rw [filter_kind_nil (K := SignalRejected) (L := if containsSub prdCompleteLit t
        then [⟨SignalPRDComplete, "", ""⟩] else [])
      (by intro g hg; by_cases hcond : containsSub prdCompleteLit t <;>
            simp [hcond] at hg <;> simp [hg] <;> decide)]
  rw [filter_kind_nil (K := SignalRejected) (L := match (scanAll (matchOne bailoutKey) t).head? with
      | some d => [⟨SignalBailout, goTrimSpace d, ""⟩]
      | none => [])
      (by intro g hg
          cases hh : (scanAll (matchOne bailoutKey) t).head? <;> rw [hh] at hg <;>
            simp at hg
          subst hg; simp [SignalBailout, SignalRejected])]
  rw [filter_kind_nil (K := SignalRejected) (L := match (scanAll (matchOne blockedKey) t).head? with
      | some d => [⟨SignalBlocked, goTrimSpace d, ""⟩]
      | none => [])
      (by intro g hg
          cases hh : (scanAll (matchOne blockedKey) t).head? <;> rw [hh] at hg <;>
            simp at hg
          subst hg; simp [SignalBlocked, SignalRejected])]
  rw [filter_kind_nil (K := SignalRejected) (L := if containsSub analysisCompleteLit t
        then [⟨SignalAnalysisComplete, "", ""⟩] else [])
      (by intro g hg; by_cases hcond : containsSub analysisCompleteLit t <;>
            simp [hcond] at hg <;> simp [hg] <;> decide)]
  rw [filter_kind_nil (K := SignalRejected) (L := (scanAll (matchOne verifiedKey) t).map
        (fun d => ⟨SignalVerified, "", goTrimSpace d⟩))
      (by intro g hg; rw [List.mem_map] at hg; obtain ⟨d, _, rfl⟩ := hg
          simp [SignalVerified, SignalRejected])]
  rw [filter_kind_nil (K := SignalRejected) (L := (scanAll (matchOne loopRiskKey) t).map
        (fun d => ⟨SignalLoopRisk, "", goTrimSpace d⟩))
      (by intro g hg; rw [List.mem_map] at hg; obtain ⟨d, _, rfl⟩ := hg
          simp [SignalLoopRisk, SignalRejected])]
  rw [filter_kind_nil (K := SignalRejected) (L := (scanAll (matchOne planCompleteKey) t).map
        (fun d => ⟨SignalPlanComplete, "", goTrimSpace d⟩))
      (by intro g hg; rw [List.mem_map] at hg; obtain ⟨d, _, rfl⟩ := hg
          simp [SignalPlanComplete, SignalRejected])]
  rw [filter_kind_nil (K := SignalRejected) (L := (scanAll (matchOne planSkippedKey) t).map
        (fun d => ⟨SignalPlanSkipped, goTrimSpace d, ""⟩))
      (by intro g hg; rw [List.mem_map] at hg; obtain ⟨d, _, rfl⟩ := hg
          simp [SignalPlanSkipped, SignalRejected])]
  rw [filter_kind_nil (K := SignalRejected) (L := (scanAll (matchOne planUpdatedKey) t).map
        (fun d => ⟨SignalPlanUpdated, "", goTrimSpace d⟩))
      (by intro g hg; rw [List.mem_map] at hg; obtain ⟨d, _, rfl⟩ := hg
          simp [SignalPlanUpdated, SignalRejected])]
  rw [List.filter_eq_self.mpr
      (by intro g hg; rw [List.mem_map] at hg; obtain ⟨d, _, rfl⟩ := hg; simp)]
  simp

theorem checkSignals_filter_loopRisk (t : List Char) :
    (checkSignals t).filter (fun g => g.SigType == SignalLoopRisk) =
      (scanAll (matchOne loopRiskKey) t).map
        (fun d => ⟨SignalLoopRisk, "", goTrimSpace d⟩) := by
  rw [checkSignals]
  repeat rw [List.filter_append]
  rw [filter_kind_nil (K := SignalLoopRisk) (L := if containsSub prdCompleteLit t
        then [⟨SignalPRDComplete, "", ""⟩] else [])
      (by intro g hg; by_cases hcond : containsSub prdCompleteLit t <;>
            simp [hcond] at hg <;> simp [hg] <;> decide)]
  rw [filter_kind_nil (K := SignalLoopRisk) (L := match (scanAll (matchOne bailoutKey) t).head? with
      | some d => [⟨SignalBailout, goTrimSpace d, ""⟩]
      | none => [])
      (by intro g hg
          cases hh : (scanAll (matchOne bailoutKey) t).head? <;> rw [hh] at hg <;>
            simp at hg
          subst hg; simp [SignalBailout, SignalLoopRisk])]
  rw [filter_kind_nil (K := SignalLoopRisk) (L := match (scanAll (matchOne blockedKey) t).head? with
      | some d => [⟨SignalBlocked, goTrimSpace d, ""⟩]
      | none => [])
      (by intro g hg
          cases hh : (scanAll (matchOne blockedKey) t).head? <;> rw [hh] at hg <;>
            simp at hg
          subst hg; simp [SignalBlocked, SignalLoopRisk])]
  rw [filter_kind_nil (K := SignalLoopRisk) (L := if containsSub analysisCompleteLit t
        then [⟨SignalAnalysisComplete, "", ""⟩] else [])
      (by intro g hg; by_cases hcond : containsSub analysisCompleteLit t <;>
            simp [hcond] at hg <;> simp [hg] <;> decide)]
  rw [filter_kind_nil (K := SignalLoopRisk) (L := (scanAll (matchOne verifiedKey) t).map
        (fun d => ⟨SignalVerified, "", goTrimSpace d⟩))
      (by intro g hg; rw [List.mem_map] at hg; obtain ⟨d, _, rfl⟩ := hg
          simp [SignalVerified, SignalLoopRisk])]
  rw [filter_kind_nil (K := SignalLoopRisk) (L := (scanAll (matchTwo rejectedKey) t).map
        (fun g => ⟨SignalRejected, goTrimSpace g.2, goTrimSpace g.1⟩))
      (by intro g hg; rw [List.mem_map] at hg; obtain ⟨d, _, rfl⟩ := hg
          simp [SignalRejected, SignalLoopRisk])]
  rw [filter_kind_nil (K := SignalLoopRisk) (L := (scanAll (matchOne planCompleteKey) t).map
        (fun d => ⟨SignalPlanComplete, "", goTrimSpace d⟩))
      (by intro g hg; rw [List.mem_map] at hg; obtain ⟨d, _, rfl⟩ := hg
          simp [SignalPlanComplete, SignalLoopRisk])]
  rw [filter_kind_nil (K := SignalLoopRisk) (L := (scanAll (matchOne planSkippedKey) t).map
        (fun d => ⟨SignalPlanSkipped, goTrimSpace d, ""⟩))
      (by intro g hg; rw [List.mem_map] at hg; obtain ⟨d, _, rfl⟩ := hg
          simp [SignalPlanSkipped, SignalLoopRisk])]
  rw [filter_kind_nil (K := SignalLoopRisk) (L := (scanAll (matchOne planUpdatedKey) t).map
        (fun d => ⟨SignalPlanUpdated, "", goTrimSpace d⟩))
      (by intro g hg; rw [List.mem_map] at hg; obtain ⟨d, _, rfl⟩ := hg
          simp [SignalPlanUpdated, SignalLoopRisk])]
  rw [List.filter_eq_self.mpr
      (by intro g hg; rw [List.mem_map] at hg; obtain ⟨d, _, rfl⟩ := hg; simp)]
  simp

theorem checkSignals_filter_planComplete (t : List Char) :
    (checkSignals t).filter (fun g => g.SigType == SignalPlanComplete) =
      (scanAll (matchOne planCompleteKey) t).map
        (fun d => ⟨SignalPlanComplete, "", goTrimSpace d⟩) := by
  rw [checkSignals]
  repeat rw [List.filter_append]
  rw [filter_kind_nil (K := SignalPlanComplete) (L := if containsSub prdCompleteLit t
        then [⟨SignalPRDComplete, "", ""⟩] else [])
      (by intro g hg; by_cases hcond : containsSub prdCompleteLit t <;>
            simp [hcond] at hg <;> simp [hg] <;> decide)]
  rw [filter_kind_nil (K := SignalPlanComplete) (L := match (scanAll (matchOne bailoutKey) t).head? with
      | some d => [⟨SignalBailout, goTrimSpace d, ""⟩]
      | none => [])
      (by intro g hg
          cases hh : (scanAll (matchOne bailoutKey) t).head? <;> rw [hh] at hg <;>
            simp at hg
          subst hg; simp [SignalBailout, SignalPlanComplete])]
  rw [filter_kind_nil (K := SignalPlanComplete) (L := match (scanAll (matchOne blockedKey) t).head? with
      | some d => [⟨SignalBlocked, goTrimSpace d, ""⟩]
      | none => [])
      (by intro g hg
          cases hh : (scanAll (matchOne blockedKey) t).head? <;> rw [hh] at hg <;>
            simp at hg
          subst hg; simp [SignalBlocked, SignalPlanComplete])]
  rw [filter_kind_nil (K := SignalPlanComplete) (L := if containsSub analysisCompleteLit t
        then [⟨SignalAnalysisComplete, "", ""⟩] else [])
      (by intro g hg; by_cases hcond : containsSub analysisCompleteLit t <;>
            simp [hcond] at hg <;> simp [hg] <;> decide)]
  rw [filter_kind_nil (K := SignalPlanComplete) (L := (scanAll (matchOne verifiedKey) t).map
        (fun d => ⟨SignalVerified, "", goTrimSpace d⟩))
      (by intro g hg; rw [List.mem_map] at hg; obtain ⟨d, _, rfl⟩ := hg
          simp [SignalVerified, SignalPlanComplete])]
  rw [filter_kind_nil (K := SignalPlanComplete) (L := (scanAll (matchTwo rejectedKey) t).map
        (fun g => ⟨SignalRejected, goTrimSpace g.2, goTrimSpace g.1⟩))
      (by intro g hg; rw [List.mem_map] at hg; obtain ⟨d, _, rfl⟩ := hg
          simp [SignalRejected, SignalPlanComplete])]
  rw [filter_kind_nil (K := SignalPlanComplete) (L := (scanAll (matchOne loopRiskKey) t).map
        (fun d => ⟨SignalLoopRisk, "", goTrimSpace d⟩))
      (by intro g hg; rw [List.mem_map] at hg; obtain ⟨d, _, rfl⟩ := hg
          simp [SignalLoopRisk, SignalPlanComplete])]
  rw [filter_kind_nil (K := SignalPlanComplete) (L := (scanAll (matchOne planSkippedKey) t).map
        (fun d => ⟨SignalPlanSkipped, goTrimSpace d, ""⟩))
      (by intro g hg; rw [List.mem_map] at hg; obtain ⟨d, _, rfl⟩ := hg
          simp [SignalPlanSkipped, SignalPlanComplete])]
  rw [filter_kind_nil (K := SignalPlanComplete) (L := (scanAll (matchOne planUpdatedKey) t).map
        (fun d => ⟨SignalPlanUpdated, "", goTrimSpace d⟩))
      (by intro g hg; rw [List.mem_map] at hg; obtain ⟨d, _, rfl⟩ := hg
          simp [SignalPlanUpdated, SignalPlanComplete])]
  rw [List.filter_eq_self.mpr
      (by intro g hg; rw [List.mem_map] at hg; obtain ⟨d, _, rfl⟩ := hg; simp)]
  simp

theorem checkSignals_filter_planUpdated (t : List Char) :
    (checkSignals t).filter (fun g => g.SigType == SignalPlanUpdated) =
      (scanAll (matchOne planUpdatedKey) t).map
        (fun d => ⟨SignalPlanUpdated, "", goTrimSpace d⟩) := by
  rw [checkSignals]
  repeat rw [List.filter_append]
  rw [filter_kind_nil (K := SignalPlanUpdated) (L := if containsSub prdCompleteLit t
        then [⟨SignalPRDComplete, "", ""⟩] else [])
      (by intro g hg; by_cases hcond : containsSub prdCompleteLit t <;>
            simp [hcond] at hg <;> simp [hg] <;> decide)]
  rw [filter_kind_nil (K := SignalPlanUpdated) (L := match (scanAll (matchOne bailoutKey) t).head? with
      | some d => [⟨SignalBailout, goTrimSpace d, ""⟩]
      | none => [])
      (by intro g hg
          cases hh : (scanAll (matchOne bailoutKey) t).head? <;> rw [hh] at hg <;>
            simp at hg
          subst hg; simp [SignalBailout, SignalPlanUpdated])]
  rw [filter_kind_nil (K := SignalPlanUpdated) (L := match (scanAll (matchOne blockedKey) t).head? with
      | some d => [⟨SignalBlocked, goTrimSpace d, ""⟩]
      | none => [])
      (by intro g hg
          cases hh : (scanAll (matchOne blockedKey) t).head? <;> rw [hh] at hg <;>
            simp at hg
          subst hg; simp [SignalBlocked, SignalPlanUpdated])]
  rw [filter_kind_nil (K := SignalPlanUpdated) (L := if containsSub analysisCompleteLit t
        then [⟨SignalAnalysisComplete, "", ""⟩] else [])
      (by intro g hg; by_cases hcond : containsSub analysisCompleteLit t <;>
            simp [hcond] at hg <;> simp [hg] <;> decide)]
  rw [filter_kind_nil (K := SignalPlanUpdated) (L := (scanAll (matchOne verifiedKey) t).map
        (fun d => ⟨SignalVerified, "", goTrimSpace d⟩))
      (by intro g hg; rw [List.mem_map] at hg; obtain ⟨d, _, rfl⟩ := hg
          simp [SignalVerified, SignalPlanUpdated])]
  rw [filter_kind_nil (K := SignalPlanUpdated) (L := (scanAll (matchTwo rejectedKey) t).map
        (fun g => ⟨SignalRejected, goTrimSpace g.2, goTrimSpace g.1⟩))
      (by intro g hg; rw [List.mem_map] at hg; obtain ⟨d, _, rfl⟩ := hg
          simp [SignalRejected, SignalPlanUpdated])]
  rw [filter_kind_nil (K := SignalPlanUpdated) (L := (scanAll (matchOne loopRiskKey) t).map
        (fun d => ⟨SignalLoopRisk, "", goTrimSpace d⟩))
      (by intro g hg; rw [List.mem_map] at hg; obtain ⟨d, _, rfl⟩ := hg
          simp [SignalLoopRisk, SignalPlanUpdated])]
  rw [filter_kind_nil (K := SignalPlanUpdated) (L := (scanAll (matchOne planCompleteKey) t).map
        (fun d => ⟨SignalPlanComplete, "", goTrimSpace d⟩))
      (by intro g hg; rw [List.mem_map] at hg; obtain ⟨d, _, rfl⟩ := hg
          simp [SignalPlanComplete, SignalPlanUpdated])]
  rw [filter_kind_nil (K := SignalPlanUpdated) (L := (scanAll (matchOne planSkippedKey) t).map
        (fun d => ⟨SignalPlanSkipped, goTrimSpace d, ""⟩))
      (by intro g hg; rw [List.mem_map] at hg; obtain ⟨d, _, rfl⟩ := hg
          simp [SignalPlanSkipped, SignalPlanUpdated])]
  rw [List.filter_eq_self.mpr
      (by intro g hg; rw [List.mem_map] at hg; obtain ⟨d, _, rfl⟩ := hg; simp)]
  simp

/-- Claim C7: the signal parser extracts ALL occurrences of each of the
repeatable marker kinds — VERIFIED, REJECTED, LOOP_RISK, PLAN_COMPLETE and
PLAN_UPDATED — not just the first, preserving duplicates and left-to-right
order: for any number of markers of the kind interleaved with arbitrary
prose (prose free of the `#` metacharacter, one-capture payloads nonempty
and free of `#` and newline, the REJECTED id group nonempty and free of
`:` and newline, the REJECTED reason group nonempty and free of `#` and
newline), the signals of that kind in the extracted list are exactly the
payloads, trimmed, in text order. -/
theorem c7_repeatable_all_extracted :
    (∀ (p0 : List Char) (segs : List (List Char × List Char)),
      (∀ ch ∈ p0, ch ≠ '#') →
      (∀ z ∈ segs, (z.1 ≠ [] ∧ ∀ ch ∈ z.1, ch ≠ '#' ∧ ch ≠ '\n') ∧
          ∀ ch ∈ z.2, ch ≠ '#') →
      (checkSignals (marksText (oneArgMarkerOf verifiedKey) p0 segs)).filter
          (fun g => g.SigType == SignalVerified) =
        segs.map (fun z => ⟨SignalVerified, "", goTrimSpace z.1⟩)) ∧
    (∀ (p0 : List Char) (segs : List ((List Char × List Char) × List Char)),
      (∀ ch ∈ p0, ch ≠ '#') →
      (∀ z ∈ segs, ((z.1.1 ≠ [] ∧ ∀ ch ∈ z.1.1, ch ≠ ':' ∧ ch ≠ '\n') ∧
          (z.1.2 ≠ [] ∧ ∀ ch ∈ z.1.2, ch ≠ '#' ∧ ch ≠ '\n')) ∧
          ∀ ch ∈ z.2, ch ≠ '#') →
      (checkSignals (marksText rejMarkerOf p0 segs)).filter
          (fun g => g.SigType == SignalRejected) =
        segs.map (fun z =>
          ⟨SignalRejected, goTrimSpace z.1.2, goTrimSpace z.1.1⟩)) ∧
    (∀ (p0 : List Char) (segs : List (List Char × List Char)),
      (∀ ch ∈ p0, ch ≠ '#') →
      (∀ z ∈ segs, (z.1 ≠ [] ∧ ∀ ch ∈ z.1, ch ≠ '#' ∧ ch ≠ '\n') ∧
          ∀ ch ∈ z.2, ch ≠ '#') →
      (checkSignals (marksText (oneArgMarkerOf loopRiskKey) p0 segs)).filter
          (fun g => g.SigType == SignalLoopRisk) =
        segs.map (fun z => ⟨SignalLoopRisk, "", goTrimSpace z.1⟩)) ∧
    (∀ (p0 : List Char) (segs : List (List Char × List Char)),
      (∀ ch ∈ p0, ch ≠ '#') →
      (∀ z ∈ segs, (z.1 ≠ [] ∧ ∀ ch ∈ z.1, ch ≠ '#' ∧ ch ≠ '\n') ∧
          ∀ ch ∈ z.2, ch ≠ '#') →
      (checkSignals (marksText (oneArgMarkerOf planCompleteKey) p0 segs)).filter
          (fun g => g.SigType == SignalPlanComplete) =
        segs.map (fun z => ⟨SignalPlanComplete, "", goTrimSpace z.1⟩)) ∧
    (∀ (p0 : List Char) (segs : List (List Char × List Char)),
      (∀ ch ∈ p0, ch ≠ '#') →
      (∀ z ∈ segs, (z.1 ≠ [] ∧ ∀ ch ∈ z.1, ch ≠ '#' ∧ ch ≠ '\n') ∧
          ∀ ch ∈ z.2, ch ≠ '#') →
      (checkSignals (marksText (oneArgMarkerOf planUpdatedKey) p0 segs)).filter
          (fun g => g.SigType == SignalPlanUpdated) =
        segs.map (fun z => ⟨SignalPlanUpdated, "", goTrimSpace z.1⟩)) := by
  refine ⟨?_, ?_, ?_, ?_, ?_⟩
  · intro p0 segs hp hsegs
    rw [checkSignals_filter_verified]
    rw [scanAll_marksText
        (P := fun x => x ≠ [] ∧ ∀ ch ∈ x, ch ≠ '#' ∧ ch ≠ '\n')
        (matchOne_shrinking verifiedKey)
        (fun c rest hc => matchOne_none_head
          (show verifiedKey.head? = some '#' from rfl) c rest hc)
        (fun x rest hx => matchOne_marker_step verifiedKey x rest hx.1 hx.2)
        (fun x => by
          rw [oneArgMarkerOf]
          rw [show verifiedKey = '#' :: "##VERIFIED:".data from rfl]
          simp)
        segs p0 hp hsegs]
    rw [List.map_map]
    rfl
  · intro p0 segs hp hsegs
    rw [checkSignals_filter_rejected]
    rw [scanAll_marksText
        (P := fun x : List Char × List Char =>
          (x.1 ≠ [] ∧ ∀ ch ∈ x.1, ch ≠ ':' ∧ ch ≠ '\n') ∧
          (x.2 ≠ [] ∧ ∀ ch ∈ x.2, ch ≠ '#' ∧ ch ≠ '\n'))
        (matchTwo_shrinking rejectedKey)
        (fun c rest hc => matchTwo_none_head
          (show rejectedKey.head? = some '#' from rfl) c rest hc)
        (fun x rest hx => by
          obtain ⟨g1, g2⟩ := x
          exact matchTwo_marker_step g1 g2 rest hx.1.1 hx.1.2 hx.2.1 hx.2.2)
        (fun x => by
          rw [rejMarkerOf]
          rw [show rejectedKey = '#' :: "##REJECTED:".data from rfl]
          simp)
        segs p0 hp hsegs]
    rw [List.map_map]
    rfl
  · intro p0 segs hp hsegs
    rw [checkSignals_filter_loopRisk]
    rw [scanAll_marksText
        (P := fun x => x ≠ [] ∧ ∀ ch ∈ x, ch ≠ '#' ∧ ch ≠ '\n')
        (matchOne_shrinking loopRiskKey)
        (fun c rest hc => matchOne_none_head
          (show loopRiskKey.head? = some '#' from rfl) c rest hc)
        (fun x rest hx => matchOne_marker_step loopRiskKey x rest hx.1 hx.2)
        (fun x => by
          rw [oneArgMarkerOf]
          rw [show loopRiskKey = '#' :: "##LOOP_RISK:".data from rfl]
          simp)
        segs p0 hp hsegs]
    rw [List.map_map]
    rfl
  · intro p0 segs hp hsegs
    rw [checkSignals_filter_planComplete]
    rw [scanAll_marksText
        (P := fun x => x ≠ [] ∧ ∀ ch ∈ x, ch ≠ '#' ∧ ch ≠ '\n')
        (matchOne_shrinking planCompleteKey)
        (fun c rest hc => matchOne_none_head
          (show planCompleteKey.head? = some '#' from rfl) c rest hc)
        (fun x rest hx => matchOne_marker_step planCompleteKey x rest hx.1 hx.2)
        (fun x => by
          rw [oneArgMarkerOf]
          rw [show planCompleteKey = '#' :: "##PLAN_COMPLETE:".data from rfl]
          simp)
        segs p0 hp hsegs]
    rw [List.map_map]
    rfl
  · intro p0 segs hp hsegs
    rw [checkSignals_filter_planUpdated]
    rw [scanAll_marksText
        (P := fun x => x ≠ [] ∧ ∀ ch ∈ x, ch ≠ '#' ∧ ch ≠ '\n')
        (matchOne_shrinking planUpdatedKey)
        (fun c rest hc => matchOne_none_head
          (show planUpdatedKey.head? = some '#' from rfl) c rest hc)
        (fun x rest hx => matchOne_marker_step planUpdatedKey x rest hx.1 hx.2)
        (fun x => by
          rw [oneArgMarkerOf]
          rw [show planUpdatedKey = '#' :: "##PLAN_UPDATED:".data from rfl]
          simp)
        segs p0 hp hsegs]
    rw [List.map_map]
    rfl

/-- Claim C7 witness: the VERIFIED part at the spec's exact example text —
two markers in one chunk — yields exactly the two record ids "prd-12" and
"prd-7", trimmed, in that order; and the REJECTED part at a two-marker
chunk yields both id/reason pairs in order. -/
theorem c7_repeatable_all_extracted_witness :
    (checkSignals
        "Some prose ###VERIFIED:prd-12### more prose ###VERIFIED:prd-7###".data).filter
        (fun g => g.SigType == SignalVerified) =
      [⟨SignalVerified, "", "prd-12"⟩, ⟨SignalVerified, "", "prd-7"⟩] ∧
    (checkSignals
        "x ###REJECTED:prd-3:needs tests### y ###REJECTED:prd-9:flaky### z".data).filter
        (fun g => g.SigType == SignalRejected) =
      [⟨SignalRejected, "needs tests", "prd-3"⟩,
       ⟨SignalRejected, "flaky", "prd-9"⟩] := by
  constructor
  · have heq :
        "Some prose ###VERIFIED:prd-12### more prose ###VERIFIED:prd-7###".data =
          marksText (oneArgMarkerOf verifiedKey) "Some prose ".data
            [("prd-12".data, " more prose ".data), ("prd-7".data, [])] := by
      decide
    rw [heq]
    rw [c7_repeatable_all_extracted.1 "Some prose ".data
        [("prd-12".data, " more prose ".data), ("prd-7".data, [])]
        (by decide) (by decide)]
    decide
  · have heq :
        "x ###REJECTED:prd-3:needs tests### y ###REJECTED:prd-9:flaky### z".data =
          marksText rejMarkerOf "x ".data
            [(("prd-3".data, "needs tests".data), " y ".data),
             (("prd-9".data, "flaky".data), " z".data)] := by
      decide
    rw [heq]
    rw [c7_repeatable_all_extracted.2.1 "x ".data
        [(("prd-3".data, "needs tests".data), " y ".data),
         (("prd-9".data, "flaky".data), " z".data)]
        (by decide) (by decide)]
    decide
